import Mathlib

/-!
Verification of the COMEHERE JS-to-JS transformer.

This file gives a shallow embedding, in Lean, of the transformer's data
model and the passes the checked claims are about: the AST block-normalizer
(`blockify`), the return-trailing COMEHERE capture pass
(`pullComeHereBlocksAfterReturnIntoFinally`), the COMEHERE block extractor,
the control-driving rewrites for switch statements, catch handlers and
function boundaries (active-frame prologue and call synthesis), and the
`$$name` capture-variable pass (`desugarDollarDollarVarShorthand`).

The embedded AST is a faithful fragment of the Babel AST the source
manipulates: each constructor mirrors a Babel node kind the transformer
touches, and each embedded pass mirrors the corresponding source function
statement by statement.  JS `Array.prototype.splice` is modelled with its
real semantics (`deleteCount` clamped to the tail length), and JS field
access on absent properties (`undefined`) is modelled with `Option`.
-/

namespace Comehere

/-- Names of identifiers, labels and properties. -/
abbrev Name := String

mutual

/-- Babel expression nodes used by the transformer. -/
inductive Expr : Type where
  /-- `Identifier` -/
  | ident (name : Name)
  /-- `NumericLiteral` -/
  | num (n : Int)
  /-- `StringLiteral` -/
  | str (s : String)
  /-- `BigIntLiteral` (value kept as a natural number) -/
  | bigintLit (v : Nat)
  /-- `BooleanLiteral` -/
  | boolLit (b : Bool)
  /-- `NullLiteral` -/
  | nullLit
  /-- `ObjectExpression` with no properties, as built by `types.objectExpression([])` -/
  | objectLit
  /-- `MemberExpression` -/
  | member (obj prop : Expr) (computed : Bool)
  /-- `AssignmentExpression` with its operator string (`=`, `+=`, `|=`, ...) -/
  | assign (op : String) (lhs rhs : Expr)
  /-- `BinaryExpression` -/
  | binary (op : String) (l r : Expr)
  /-- `LogicalExpression` -/
  | logical (op : String) (l r : Expr)
  /-- `UnaryExpression` -/
  | unary (op : String) (e : Expr)
  /-- `ConditionalExpression` -/
  | cond (t c a : Expr)
  /-- `CallExpression` -/
  | call (callee : Expr) (args : List Expr)
  /-- `NewExpression` -/
  | newExpr (callee : Expr) (args : List Expr)
  /-- `SequenceExpression` -/
  | seqExpr (es : List Expr)
  /-- `SpreadElement` (argument position) -/
  | spread (e : Expr)
  /-- `ArrowFunctionExpression` -/
  | arrow (params : List Name) (body : FnBody)
  /-- `ArrayExpression` (as built by `types.arrayExpression([...])`) -/
  | arrayLit (es : List Expr)

/-- The body of an arrow function: an expression or a block. -/
inductive FnBody : Type where
  | expr (e : Expr)
  | block (ss : List Stmt)

/-- Babel statement nodes used by the transformer. -/
inductive Stmt : Type where
  /-- `ExpressionStatement` -/
  | exprStmt (e : Expr)
  /-- `BlockStatement` -/
  | block (ss : List Stmt)
  /-- `VariableDeclaration`: kind (`let`/`const`/`var`) and declarators;
      a declarator with `none` init is `let x;` -/
  | varDecl (kind : String) (decls : List (Name × Option Expr))
  /-- `IfStatement` -/
  | ifStmt (test : Expr) (cons : Stmt) (alt : Option Stmt)
  /-- `WhileStatement` -/
  | whileStmt (test : Expr) (body : Stmt)
  /-- `DoWhileStatement` -/
  | doWhileStmt (body : Stmt) (test : Expr)
  /-- `ForStatement` (init elided; test/update kept) -/
  | forStmt (test : Option Expr) (update : Option Expr) (body : Stmt)
  /-- `ForOfStatement` with a `let` binder on the left -/
  | forOfStmt (binder : Name) (rhs : Expr) (body : Stmt)
  /-- `ForInStatement` with a `let` binder on the left -/
  | forInStmt (binder : Name) (rhs : Expr) (body : Stmt)
  /-- `ReturnStatement` -/
  | returnStmt (arg : Option Expr)
  /-- `LabeledStatement` -/
  | labeled (label : Name) (body : Stmt)
  /-- `WithStatement` -/
  | withStmt (obj : Expr) (body : Stmt)
  /-- `SwitchStatement` -/
  | switchStmt (disc : Expr) (cases : List SwitchCase)
  /-- `TryStatement` -/
  | tryStmt (blk : List Stmt) (handler : Option Handler)
      (finalizer : Option (List Stmt))
  /-- `ThrowStatement` -/
  | throwStmt (e : Expr)
  /-- `FunctionDeclaration` -/
  | funcDecl (name : Name) (params : List Name) (body : List Stmt)
  /-- `EmptyStatement` -/
  | empty

/-- `SwitchCase`: a test of `none` is `default:`. -/
inductive SwitchCase : Type where
  | mk (test : Option Expr) (consequent : List Stmt)

/-- `CatchClause` -/
inductive Handler : Type where
  | mk (param : Option Name) (body : List Stmt)

end

namespace SwitchCase

def test : SwitchCase → Option Expr
  | .mk t _ => t

def consequent : SwitchCase → List Stmt
  | .mk _ c => c

end SwitchCase

/-! ## The block-normalizer (`blockify`)

`blockify` traverses the tree with exit (post-order) visitors and

* wraps non-block `if` consequents, and non-block alternates that are not
  themselves `if` statements (else-if chains), in blocks;
* wraps non-block loop bodies (`Loop` covers `while`, `do/while`, `for`,
  `for-of`, `for-in`) in blocks;
* wraps non-block `with` bodies in blocks;
* turns expression-bodied arrow functions into block bodies with a
  single `return`.

The post-order visit is modelled by recursing into children first and
applying the node's rule to the recursion results.
-/
/-- `maybeBlockifyPath`: wrap in a block unless already a block. -/
def maybeBlockify (s : Stmt) : Stmt :=
  match s with
  | .block _ => s
  | _ => .block [s]

/-- The alternate of an `if` is wrapped only when it is neither a block
    nor another `if` statement. -/
def maybeBlockifyAlt (s : Stmt) : Stmt :=
  match s with
  | .block _ => s
  | .ifStmt _ _ _ => s
  | _ => .block [s]

mutual

def blockifyE : Expr → Expr
  | .ident n => .ident n
  | .num n => .num n
  | .str s => .str s
  | .bigintLit v => .bigintLit v
  | .boolLit b => .boolLit b
  | .nullLit => .nullLit
  | .objectLit => .objectLit
  | .member o p c => .member (blockifyE o) (blockifyE p) c
  | .assign op l r => .assign op (blockifyE l) (blockifyE r)
  | .binary op l r => .binary op (blockifyE l) (blockifyE r)
  | .logical op l r => .logical op (blockifyE l) (blockifyE r)
  | .unary op e => .unary op (blockifyE e)
  | .cond t c a => .cond (blockifyE t) (blockifyE c) (blockifyE a)
  | .call f args => .call (blockifyE f) (blockifyExprs args)
  | .newExpr f args => .newExpr (blockifyE f) (blockifyExprs args)
  | .seqExpr es => .seqExpr (blockifyExprs es)
  | .spread e => .spread (blockifyE e)
  | .arrow ps b => .arrow ps (blockifyFnBody b)
  | .arrayLit es => .arrayLit (blockifyExprs es)

/-- On exiting an arrow function, an expression body becomes a block
    with a single return of that expression. -/
def blockifyFnBody : FnBody → FnBody
  | .expr e => .block [.returnStmt (some (blockifyE e))]
  | .block ss => .block (blockifyStmts ss)

def blockifyS : Stmt → Stmt
  | .exprStmt e => .exprStmt (blockifyE e)
  | .block ss => .block (blockifyStmts ss)
  | .varDecl k ds => .varDecl k (blockifyDecls ds)
  | .ifStmt t c a =>
      .ifStmt (blockifyE t) (maybeBlockify (blockifyS c))
        (blockifyOptAlt a)
  | .whileStmt t b => .whileStmt (blockifyE t) (maybeBlockify (blockifyS b))
  | .doWhileStmt b t => .doWhileStmt (maybeBlockify (blockifyS b)) (blockifyE t)
  | .forStmt t u b =>
      .forStmt (blockifyOptE t) (blockifyOptE u) (maybeBlockify (blockifyS b))
  | .forOfStmt x rhs b =>
      .forOfStmt x (blockifyE rhs) (maybeBlockify (blockifyS b))
  | .forInStmt x rhs b =>
      .forInStmt x (blockifyE rhs) (maybeBlockify (blockifyS b))
  | .returnStmt arg => .returnStmt (blockifyOptE arg)
  | .labeled l b => .labeled l (blockifyS b)
  | .withStmt o b => .withStmt (blockifyE o) (maybeBlockify (blockifyS b))
  | .switchStmt d cs => .switchStmt (blockifyE d) (blockifyCases cs)
  | .tryStmt b h f =>
      .tryStmt (blockifyStmts b) (blockifyOptHandler h) (blockifyOptStmts f)
  | .throwStmt e => .throwStmt (blockifyE e)
  | .funcDecl n ps b => .funcDecl n ps (blockifyStmts b)
  | .empty => .empty

def blockifyOptAlt : Option Stmt → Option Stmt
  | none => none
  | some s => some (maybeBlockifyAlt (blockifyS s))

def blockifyOptE : Option Expr → Option Expr
  | none => none
  | some e => some (blockifyE e)

def blockifyOptHandler : Option Handler → Option Handler
  | none => none
  | some (.mk p b) => some (.mk p (blockifyStmts b))

def blockifyOptStmts : Option (List Stmt) → Option (List Stmt)
  | none => none
  | some ss => some (blockifyStmts ss)

def blockifyStmts : List Stmt → List Stmt
  | [] => []
  | s :: ss => blockifyS s :: blockifyStmts ss

def blockifyExprs : List Expr → List Expr
  | [] => []
  | e :: es => blockifyE e :: blockifyExprs es

def blockifyCases : List SwitchCase → List SwitchCase
  | [] => []
  | .mk t c :: cs => .mk (blockifyOptE t) (blockifyStmts c) :: blockifyCases cs

def blockifyDecls : List (Name × Option Expr) → List (Name × Option Expr)
  | [] => []
  | (n, i) :: ds => (n, blockifyOptE i) :: blockifyDecls ds

end

/-- `blockify` on a whole module (a `Program` is its statement list). -/
def blockify (program : List Stmt) : List Stmt :=
  blockifyStmts program

/-! ## Name pool (`NameMaker`, from `name-maker.mjs`)

`unusedNameAndSuffixNum` starts at the per-prefix counter and walks forward
until `<pfx>_<n>` is not among the used names, then stores the successor
counter.  The source's `while (true)` loop is bounded here by
`namesUsed.length + 1` candidate probes; since the candidates are pairwise
distinct and at most `namesUsed.length` of them can collide, the bound is
never reached.
-/
/-- The transformer's name pool: the identifiers used in the source module
    plus a per-prefix counter map. -/
structure NameMaker where
  namesUsed : List String
  counters : List (String × Nat)

/-- Association-list read with default 0: `counters.get(p) || 0`. -/
def countersGet (cs : List (String × Nat)) (k : String) : Nat :=
  match cs.find? (fun p => p.1 == k) with
  | some p => p.2
  | none => 0

/-- Association-list write: `counters.set(p, n)`. -/
def countersSet (cs : List (String × Nat)) (k : String) (v : Nat) : List (String × Nat) :=
  match cs with
  | [] => [(k, v)]
  | (k', v') :: rest =>
      if k' == k then (k, v) :: rest else (k', v') :: countersSet rest k v

/-- The candidate-probing loop of `unusedNameAndSuffixNum`. -/
def firstUnusedFrom (used : List String) (pfx : String) : Nat → Nat → String × Nat
  | start, 0 => (pfx ++ "_" ++ toString start, start)
  | start, fuel + 1 =>
      let candidate := pfx ++ "_" ++ toString start
      if used.contains candidate then firstUnusedFrom used pfx (start + 1) fuel
      else (candidate, start)

/-- `NameMaker.unusedNameAndSuffixNum`: vends `<pfx>_<n>` and the suffix `n`,
    updating the per-prefix counter to `n + 1`. -/
def NameMaker.unusedNameAndSuffixNum (nm : NameMaker) (pfx : String) :
    (String × Nat) × NameMaker :=
  let start := countersGet nm.counters pfx
  let r := firstUnusedFrom nm.namesUsed pfx start (nm.namesUsed.length + 1)
  (r, { nm with counters := countersSet nm.counters pfx (r.2 + 1) })

/-- `NameMaker.unusedName`. -/
def NameMaker.unusedName (nm : NameMaker) (pfx : String) : String × NameMaker :=
  let r := nm.unusedNameAndSuffixNum pfx
  (r.1.1, r.2)

/-! ## Return-trailing capture (`pullComeHereBlocksAfterReturnIntoFinally`)

The source looks, inside a block statement, for a `return` immediately
followed by one or more COMEHERE blocks.  It rewrites `Function.return`
member expressions inside the trailing COMEHERE blocks to a fresh
`functionReturn_<k>` identifier, replaces the return's argument with that
identifier, and then calls
`statements.splice(returnIndex, afterLast, letDecl, ...comeHereBlocks, return)`.
JS `splice` takes a *count* as its second argument, so this deletes
`afterLast` elements starting at `returnIndex` (clamped to the tail length),
not the elements up to index `afterLast`.
-/
/-- `isComehereBlock`: a labelled statement `COMEHERE: with (...) {...}`. -/
def isComehereBlock : Stmt → Bool
  | .labeled l (.withStmt _ _) => l == "COMEHERE"
  | _ => false

mutual

/-- The `MemberExpression` visitor that replaces non-computed
    `Function.return` with the fresh return-capture identifier. -/
def rewriteFunctionReturnE (r : Name) : Expr → Expr
  | .member o p c =>
      match o, p, c with
      | .ident "Function", .ident "return", false => .ident r
      | _, _, _ => .member (rewriteFunctionReturnE r o) (rewriteFunctionReturnE r p) c
  | .ident n => .ident n
  | .num n => .num n
  | .str s => .str s
  | .bigintLit v => .bigintLit v
  | .boolLit b => .boolLit b
  | .nullLit => .nullLit
  | .objectLit => .objectLit
  | .assign op l rr => .assign op (rewriteFunctionReturnE r l) (rewriteFunctionReturnE r rr)
  | .binary op l rr => .binary op (rewriteFunctionReturnE r l) (rewriteFunctionReturnE r rr)
  | .logical op l rr => .logical op (rewriteFunctionReturnE r l) (rewriteFunctionReturnE r rr)
  | .unary op e => .unary op (rewriteFunctionReturnE r e)
  | .cond t c a =>
      .cond (rewriteFunctionReturnE r t) (rewriteFunctionReturnE r c) (rewriteFunctionReturnE r a)
  | .call f args => .call (rewriteFunctionReturnE r f) (rewriteFunctionReturnEs r args)
  | .newExpr f args => .newExpr (rewriteFunctionReturnE r f) (rewriteFunctionReturnEs r args)
  | .seqExpr es => .seqExpr (rewriteFunctionReturnEs r es)
  | .spread e => .spread (rewriteFunctionReturnE r e)
  | .arrow ps b => .arrow ps (rewriteFunctionReturnFnBody r b)
  | .arrayLit es => .arrayLit (rewriteFunctionReturnEs r es)

def rewriteFunctionReturnFnBody (r : Name) : FnBody → FnBody
  | .expr e => .expr (rewriteFunctionReturnE r e)
  | .block ss => .block (rewriteFunctionReturnSs r ss)

def rewriteFunctionReturnS (r : Name) : Stmt → Stmt
  | .exprStmt e => .exprStmt (rewriteFunctionReturnE r e)
  | .block ss => .block (rewriteFunctionReturnSs r ss)
  | .varDecl k ds => .varDecl k (rewriteFunctionReturnDecls r ds)
  | .ifStmt t c a =>
      .ifStmt (rewriteFunctionReturnE r t) (rewriteFunctionReturnS r c)
        (rewriteFunctionReturnOptS r a)
  | .whileStmt t b => .whileStmt (rewriteFunctionReturnE r t) (rewriteFunctionReturnS r b)
  | .doWhileStmt b t => .doWhileStmt (rewriteFunctionReturnS r b) (rewriteFunctionReturnE r t)
  | .forStmt t u b =>
      .forStmt (rewriteFunctionReturnOptE r t) (rewriteFunctionReturnOptE r u)
        (rewriteFunctionReturnS r b)
  | .forOfStmt x rhs b => .forOfStmt x (rewriteFunctionReturnE r rhs) (rewriteFunctionReturnS r b)
  | .forInStmt x rhs b => .forInStmt x (rewriteFunctionReturnE r rhs) (rewriteFunctionReturnS r b)
  | .returnStmt arg => .returnStmt (rewriteFunctionReturnOptE r arg)
  | .labeled l b => .labeled l (rewriteFunctionReturnS r b)
  | .withStmt o b => .withStmt (rewriteFunctionReturnE r o) (rewriteFunctionReturnS r b)
  | .switchStmt d cs => .switchStmt (rewriteFunctionReturnE r d) (rewriteFunctionReturnCases r cs)
  | .tryStmt b h f =>
      .tryStmt (rewriteFunctionReturnSs r b) (rewriteFunctionReturnOptHandler r h)
        (rewriteFunctionReturnOptSs r f)
  | .throwStmt e => .throwStmt (rewriteFunctionReturnE r e)
  | .funcDecl n ps b => .funcDecl n ps (rewriteFunctionReturnSs r b)
  | .empty => .empty

def rewriteFunctionReturnEs (r : Name) : List Expr → List Expr
  | [] => []
  | e :: es => rewriteFunctionReturnE r e :: rewriteFunctionReturnEs r es

def rewriteFunctionReturnOptE (r : Name) : Option Expr → Option Expr
  | none => none
  | some e => some (rewriteFunctionReturnE r e)

def rewriteFunctionReturnOptS (r : Name) : Option Stmt → Option Stmt
  | none => none
  | some s => some (rewriteFunctionReturnS r s)

def rewriteFunctionReturnOptHandler (r : Name) : Option Handler → Option Handler
  | none => none
  | some (.mk p b) => some (.mk p (rewriteFunctionReturnSs r b))

def rewriteFunctionReturnOptSs (r : Name) : Option (List Stmt) → Option (List Stmt)
  | none => none
  | some ss => some (rewriteFunctionReturnSs r ss)

def rewriteFunctionReturnSs (r : Name) : List Stmt → List Stmt
  | [] => []
  | s :: ss => rewriteFunctionReturnS r s :: rewriteFunctionReturnSs r ss

def rewriteFunctionReturnCases (r : Name) : List SwitchCase → List SwitchCase
  | [] => []
  | .mk t c :: cs =>
      .mk (rewriteFunctionReturnOptE r t) (rewriteFunctionReturnSs r c)
        :: rewriteFunctionReturnCases r cs

def rewriteFunctionReturnDecls (r : Name) : List (Name × Option Expr) → List (Name × Option Expr)
  | [] => []
  | (n, i) :: ds => (n, rewriteFunctionReturnOptE r i) :: rewriteFunctionReturnDecls r ds

end

/-- JS `Array.prototype.splice(start, deleteCount, ...items)` on a list whose
    `start` is a valid position: deletes `deleteCount` elements (clamped to the
    tail length) starting at `start` and inserts `items` there. -/
def jsSplice (l : List α) (start deleteCount : Nat) (items : List α) : List α :=
  l.take start ++ items ++ l.drop (start + deleteCount)

/-- Count of consecutive COMEHERE blocks in `l` (the scan from
    `returnIndex + 1` for trailing COMEHERE candidates). -/
def countLeadingComehere : List Stmt → Nat
  | [] => 0
  | s :: rest => if isComehereBlock s then countLeadingComehere rest + 1 else 0

/-- One firing of the `ReturnStatement` exit visitor of
    `pullComeHereBlocksAfterReturnIntoFinally`, on the statement list of the
    containing block, at position `returnIndex`.  Mirrors the source: scan
    forward for COMEHERE blocks; allocate `functionReturn_<k>`; rewrite
    `Function.return` inside the trailing blocks; replace the return's
    argument; `splice(returnIndex, afterLast, letDecl, ...blocks, return)`. -/
def processReturnAt (stmts : List Stmt) (returnIndex : Nat) (nm : NameMaker) :
    List Stmt × NameMaker :=
  match stmts.get? returnIndex with
  | some (.returnStmt returnedExpression) =>
      let first := returnIndex + 1
      let nComeHereBlocks := countLeadingComehere (stmts.drop first)
      let afterLast := first + nComeHereBlocks
      if nComeHereBlocks == 0 then (stmts, nm)
      else
        let named := nm.unusedName "functionReturn"
        let functionReturnName := named.1
        let comeHereBlocks :=
          ((stmts.drop first).take nComeHereBlocks).map
            (rewriteFunctionReturnS functionReturnName)
        let newReturn : Stmt :=
          match returnedExpression with
          | some _ => .returnStmt (some (.ident functionReturnName))
          | none => .returnStmt none
        (jsSplice stmts returnIndex afterLast
          ([Stmt.varDecl "let" [(functionReturnName, returnedExpression)]]
            ++ comeHereBlocks ++ [newReturn]),
         named.2)
  | _ => (stmts, nm)

/-- The pass applied to a block's statement list: fires the visitor at the
    first return statement of the block (the claims are settled on blocks
    holding a single return). -/
def pullComeHereBlocksAfterReturnIntoFinally (stmts : List Stmt) (nm : NameMaker) :
    List Stmt × NameMaker :=
  match stmts.findIdx? (fun s => match s with | .returnStmt _ => true | _ => false) with
  | some i => processReturnAt stmts i nm
  | none => (stmts, nm)

/-! ## Support-name slots (`AssignedNames`, from `assigned-names.mjs`)

`AssignedNames` pools the names of the synthesized helpers.  Constructing it
vends the seeking variable's name at once; the other slots materialise on
demand (`requireActiveFns` and friends).  The JS fields `or`/`and` are named
`orName`/`andName` here. -/
/-- The support-name slots of the transformer. -/
structure AssignedNames where
  nameMaker : NameMaker
  seekingVarName : String
  activeFns : Option String
  maybeNotEmptyIteratorName : Option String
  maybeNotEmptyKeyIteratorName : Option String
  orName : Option String
  andName : Option String

/-- `new AssignedNames(nameMaker)`: vends the `seeking` name eagerly. -/
def AssignedNames.init (nm : NameMaker) : AssignedNames :=
  let r := nm.unusedName "seeking"
  ⟨r.2, r.1, none, none, none, none, none⟩

/-- `requireActiveFns`: the bitmask's name, vended on first demand. -/
def AssignedNames.requireActiveFns (an : AssignedNames) : String × AssignedNames :=
  match an.activeFns with
  | some n => (n, an)
  | none =>
      let r := an.nameMaker.unusedName "activeFns"
      (r.1, { an with nameMaker := r.2, activeFns := some r.1 })

/-! ## Active-frame prologue (`ensureActiveFnBodyPrefixPresent`)

The prologue installed at the top of a function that contains (or encloses
on the drive path) a goal is

    const isActiveCall_N = (activeFns_0 >> N) & 1n;
    activeFns_0 &= ~(1n << N);

`enclosingActiveFnContext` recognises an already-installed prologue by
pattern-matching the function body's first statement; in this embedding the
enclosing function is represented by its body statement list. -/
/-- `enclosingActiveFnContext`, restricted to the prologue-unpacking part:
    recognise the installed prologue at the head of a function body and
    return the local flag's name and the bit index. -/
def parseActivePrologue (an : AssignedNames) (body : List Stmt) : Option (String × Nat) :=
  match an.activeFns with
  | none => none
  | some activeFns =>
      match body with
      | .varDecl "const"
          [(idName, some (.binary "&"
              (.binary ">>" (.ident leftLeft) (.bigintLit leftRight))
              (.bigintLit _)))] :: _ =>
          if leftLeft == activeFns then some (idName, leftRight) else none
      | _ => none

/-- `ensureActiveFnBodyPrefixPresent` for a context inside a function with
    the given body: return the existing prologue's flag name and bit index,
    or allocate `isActiveCall_<N>` (bit index `N` comes from the shared
    name-counter suffix) and unshift the two prologue statements. -/
def ensureActiveFnBodyPrefixPresent (body : List Stmt) (an : AssignedNames) :
    List Stmt × (String × Nat) × AssignedNames :=
  match parseActivePrologue an body with
  | some p => (body, p, an)
  | none =>
      let ra := an.requireActiveFns
      let activeFn := ra.1
      let an₁ := ra.2
      let rb := an₁.nameMaker.unusedNameAndSuffixNum "isActiveCall"
      let isActiveCall := rb.1.1
      let bitIndex := rb.1.2
      let an₂ := { an₁ with nameMaker := rb.2 }
      ( Stmt.varDecl "const"
          [(isActiveCall, some (.binary "&"
              (.binary ">>" (.ident activeFn) (.bigintLit bitIndex))
              (.bigintLit 1)))]
          :: Stmt.exprStmt (.assign "&=" (.ident activeFn)
              (.unary "~" (.binary "<<" (.bigintLit 1) (.bigintLit bitIndex))))
          :: body,
        (isActiveCall, bitIndex), an₂ )

/-! ## The seeking check (`seekingCheck`)

`isActiveCall_0 && seeking_0 === 123`, or its inversion
`!isActiveCall_0 || seeking_0 !== 123`; the active-call conjunct appears
exactly when the context sits inside a function whose body starts with the
installed prologue.  The context is passed as `none` (no enclosing function)
or `some body` (the enclosing function's body statements). -/
/-- `seekingCheck`. -/
def seekingCheck (an : AssignedNames) (seekingValue : Int)
    (enclosingFnBody : Option (List Stmt)) (inverted : Bool) : Expr :=
  let comparisonOp := if inverted then "!==" else "==="
  let combiningOp := if inverted then "||" else "&&"
  let check := Expr.binary comparisonOp (.ident an.seekingVarName) (.num seekingValue)
  match enclosingFnBody.bind (parseActivePrologue an) with
  | some p =>
      let isActiveCallCheck :=
        if inverted then Expr.unary "!" (.ident p.1) else Expr.ident p.1
      .logical combiningOp isActiveCallCheck check
  | none => check

/-! ## Initializer consumption (`lookupAndConsumeParam`) -/
/-- Find the initializer whose dotted name is `pfx ++ [paramName]` joined
    with dots, consume it, and return its right-hand side together with the
    remaining initializer list. -/
def lookupAndConsumeParam (pfx : List String) (paramName : String) :
    List (String × Expr) → Option (Expr × List (String × Expr))
  | [] => none
  | (k, v) :: rest =>
      if k == String.intercalate "." (pfx ++ [paramName]) then some (v, rest)
      else
        match lookupAndConsumeParam pfx paramName rest with
        | some (e, rest') => some (e, (k, v) :: rest')
        | none => none

/-! ## The synthesised call block

From `driveControlToComeHereBlock`'s function case: the guarded call block

    if (<check>) {
      try {
        const <declarators>;
        activeFns_0 |= 1n << N;
        <invocation>;
      } finally {
        seeking_0 = 0;
      }
    }

with the declaration omitted when there are no declarators.  The check is
built outside the called function's context. -/
/-- `activeFns_0 |= 1n << N` -/
def setActiveFnBitExpression (activeFns : Name) (bitIndex : Nat) : Expr :=
  .assign "|=" (.ident activeFns) (.binary "<<" (.bigintLit 1) (.bigintLit bitIndex))

/-- The `callBlock` statement assembled by the driver. -/
def mkCallBlock (an : AssignedNames) (check : Expr)
    (declarators : List (Name × Option Expr)) (invocationExpression : Expr)
    (activeFns : Name) (bitIndex : Nat) : Stmt :=
  .ifStmt check
    (.block
      [ .tryStmt
          ((if declarators.isEmpty then [] else [Stmt.varDecl "const" declarators])
            ++ [ .exprStmt (setActiveFnBitExpression activeFns bitIndex),
                 .exprStmt invocationExpression ])
          none
          (some [ .exprStmt (.assign "=" (.ident an.seekingVarName) (.num 0)) ])
      ])
    none

/-! ## A small evaluator for emitted code

To prove the runtime properties the spec states about the emitted
scaffolding (the `finally` restoring `seeking = 0` even when the called
body throws, and the prologue's mask reads/clears), we give an executable
semantics for the statement and expression forms the scaffolding uses.
Constructs outside this fragment evaluate to `none`.  Opaque user functions
are modelled by a call oracle; an oracle result can be a normal value or a
thrown value, so a throwing callee is expressible. -/
/-- Runtime values. -/
inductive Val where
  | num (n : Int)
  | big (n : Int)
  | bool (b : Bool)
  | strV (s : String)
  | undef
  | nullV
  | obj
  deriving DecidableEq

/-- A variable store. -/
abbrev Env := List (Name × Val)

/-- Read a variable. -/
def envGet (env : Env) (n : Name) : Option Val :=
  match env.find? (fun p => p.1 == n) with
  | some p => some p.2
  | none => none

/-- Write a variable (bind it when absent). -/
def envSet (env : Env) (n : Name) (v : Val) : Env :=
  match env with
  | [] => [(n, v)]
  | (k, w) :: rest => if k == n then (n, v) :: rest else (k, w) :: envSet rest n v

/-- JS truthiness on the modelled values. -/
def truthy : Val → Bool
  | .num n => n != 0
  | .big n => n != 0
  | .bool b => b
  | .strV s => s != ""
  | .undef => false
  | .nullV => false
  | .obj => true

/-- JS strict equality on the modelled values (object identity is outside
    the fragment; comparing distinct kinds yields false as in JS). -/
def strictEq : Val → Val → Bool
  | .num a, .num b => a == b
  | .big a, .big b => a == b
  | .bool a, .bool b => a == b
  | .strV a, .strV b => a == b
  | .undef, .undef => true
  | .nullV, .nullV => true
  | _, _ => false

/-- Binary operators used by the scaffolding: strict (in)equality, and the
    BigInt bit operations of the activation mask. -/
def applyBinary (op : String) (a b : Val) : Option Val :=
  if op == "===" then some (.bool (strictEq a b))
  else if op == "!==" then some (.bool (!strictEq a b))
  else
    match a, b with
    | .big x, .big y =>
        if op == "&" then some (.big (Int.land x y))
        else if op == "|" then some (.big (Int.lor x y))
        else if op == "<<" then some (.big (x <<< y))
        else if op == ">>" then some (.big (x >>> y))
        else none
    | _, _ => none

/-- Unary operators used by the scaffolding. -/
def applyUnary (op : String) (a : Val) : Option Val :=
  if op == "!" then some (.bool (!truthy a))
  else if op == "~" then
    match a with
    | .big x => some (.big (Int.lnot x))
    | _ => none
  else none

/-- Outcome of evaluating an expression. -/
inductive EvalOut where
  | val (env : Env) (v : Val)
  | thrown (env : Env) (v : Val)

/-- Outcome of evaluating an argument list. -/
inductive ArgsOut where
  | vals (env : Env) (vs : List Val)
  | thrown (env : Env) (v : Val)

/-- Behaviour of opaque (user) callables: callee name, argument values and
    environment in; outcome (normal or thrown) out. -/
abbrev CallOracle := Name → List Val → Env → EvalOut

mutual

/-- Expression evaluation over the scaffolding fragment. -/
def evalE (o : CallOracle) : Expr → Env → Option EvalOut
  | .ident n, env =>
      match envGet env n with
      | some v => some (.val env v)
      | none => none
  | .num n, env => some (.val env (.num n))
  | .str s, env => some (.val env (.strV s))
  | .bigintLit v, env => some (.val env (.big v))
  | .boolLit b, env => some (.val env (.bool b))
  | .nullLit, env => some (.val env .nullV)
  | .objectLit, env => some (.val env .obj)
  | .binary op l r, env =>
      match evalE o l env with
      | some (.val env₁ a) =>
          match evalE o r env₁ with
          | some (.val env₂ b) =>
              match applyBinary op a b with
              | some v => some (.val env₂ v)
              | none => none
          | some (.thrown env₂ v) => some (.thrown env₂ v)
          | none => none
      | some (.thrown env₁ v) => some (.thrown env₁ v)
      | none => none
  | .unary op e, env =>
      match evalE o e env with
      | some (.val env₁ a) =>
          match applyUnary op a with
          | some v => some (.val env₁ v)
          | none => none
      | some (.thrown env₁ v) => some (.thrown env₁ v)
      | none => none
  | .logical op l r, env =>
      match evalE o l env with
      | some (.val env₁ a) =>
          if op == "&&" then
            if truthy a then evalE o r env₁ else some (.val env₁ a)
          else if op == "||" then
            if truthy a then some (.val env₁ a) else evalE o r env₁
          else none
      | some (.thrown env₁ v) => some (.thrown env₁ v)
      | none => none
  | .assign op lhs rhs, env =>
      match lhs with
      | .ident n =>
          if op == "=" then
            match evalE o rhs env with
            | some (.val env₁ v) => some (.val (envSet env₁ n v) v)
            | some (.thrown env₁ v) => some (.thrown env₁ v)
            | none => none
          else
            match envGet env n with
            | some cur =>
                match evalE o rhs env with
                | some (.val env₁ v) =>
                    match applyBinary (op.dropRight 1) cur v with
                    | some w => some (.val (envSet env₁ n w) w)
                    | none => none
                | some (.thrown env₁ v) => some (.thrown env₁ v)
                | none => none
            | none => none
      | _ => none
  | .call f args, env =>
      match f with
      | .ident n =>
          match evalArgs o args env with
          | some (.vals env₁ vs) => some (o n vs env₁)
          | some (.thrown env₁ v) => some (.thrown env₁ v)
          | none => none
      | _ => none
  | _, _ => none

/-- Left-to-right argument evaluation. -/
def evalArgs (o : CallOracle) : List Expr → Env → Option ArgsOut
  | [], env => some (.vals env [])
  | e :: es, env =>
      match evalE o e env with
      | some (.val env₁ v) =>
          match evalArgs o es env₁ with
          | some (.vals env₂ vs) => some (.vals env₂ (v :: vs))
          | some (.thrown env₂ w) => some (.thrown env₂ w)
          | none => none
      | some (.thrown env₁ w) => some (.thrown env₁ w)
      | none => none

end

mutual

/-- Statement execution, bounded by a fuel parameter (running out of fuel
    yields `none`, like an unsupported construct): the result pairs the
    final environment with `none` (normal completion) or `some v` (a value
    `v` propagating as an exception). -/
def execS : Nat → CallOracle → Stmt → Env → Option (Env × Option Val)
  | 0, _, _, _ => none
  | _ + 1, o, .exprStmt e, env =>
      (match evalE o e env with
       | some (.val env₁ _) => some (env₁, none)
       | some (.thrown env₁ v) => some (env₁, some v)
       | none => none)
  | fuel + 1, o, .block ss, env => execSs fuel o ss env
  | fuel + 1, o, .varDecl _ ds, env => execDecls fuel o ds env
  | fuel + 1, o, .ifStmt t c a, env =>
      (match evalE o t env with
       | some (.val env₁ v) =>
           if truthy v then execS fuel o c env₁
           else
             match a with
             | some s => execS fuel o s env₁
             | none => some (env₁, none)
       | some (.thrown env₁ v) => some (env₁, some v)
       | none => none)
  | fuel + 1, o, .tryStmt blk handler finalizer, env =>
      (match execSs fuel o blk env with
       | some (env₁, exc₁) =>
           (match
              (match exc₁, handler with
               | some v, some (.mk param hbody) =>
                   (match param with
                    | some p => execSs fuel o hbody (envSet env₁ p v)
                    | none => execSs fuel o hbody env₁)
               | _, _ => some (env₁, exc₁)) with
            | some (env₂, exc₂) =>
                (match finalizer with
                 | some fb =>
                     (match execSs fuel o fb env₂ with
                      | some (env₃, some v) => some (env₃, some v)
                      | some (env₃, none) => some (env₃, exc₂)
                      | none => none)
                 | none => some (env₂, exc₂))
            | none => none)
       | none => none)
  | _ + 1, o, .throwStmt e, env =>
      (match evalE o e env with
       | some (.val env₁ v) => some (env₁, some v)
       | some (.thrown env₁ v) => some (env₁, some v)
       | none => none)
  | _ + 1, _, .empty, env => some (env, none)
  | _ + 1, _, _, _ => none

/-- Statement-list execution, stopping at the first exception. -/
def execSs : Nat → CallOracle → List Stmt → Env → Option (Env × Option Val)
  | _, _, [], env => some (env, none)
  | 0, _, _ :: _, _ => none
  | fuel + 1, o, s :: ss, env =>
      (match execS fuel o s env with
       | some (env₁, none) => execSs fuel o ss env₁
       | some (env₁, some v) => some (env₁, some v)
       | none => none)

/-- Declarator-list execution (`none` initializer binds `undefined`). -/
def execDecls : Nat → CallOracle → List (Name × Option Expr) → Env → Option (Env × Option Val)
  | _, _, [], env => some (env, none)
  | 0, _, _ :: _, _ => none
  | fuel + 1, o, (n, i) :: ds, env =>
      (match i with
       | none => execDecls fuel o ds (envSet env n .undef)
       | some e =>
           match evalE o e env with
           | some (.val env₁ v) => execDecls fuel o ds (envSet env₁ n v)
           | some (.thrown env₁ v) => some (env₁, some v)
           | none => none)

end

/-- The `seeking_0 = 0;` statement emitted in the call block's finally. -/
def seekResetStmt (seekName : Name) : Stmt :=
  .exprStmt (.assign "=" (.ident seekName) (.num 0))

/-- The first prologue statement:
    `const isActiveCall_N = (activeFns_0 >> N) & 1n;`. -/
def activeReadStmt (flag af : Name) (bit : Nat) : Stmt :=
  .varDecl "const"
    [(flag, some (.binary "&"
        (.binary ">>" (.ident af) (.bigintLit bit)) (.bigintLit 1)))]

/-- The second prologue statement: `activeFns_0 &= ~(1n << N);`. -/
def activeClearStmt (af : Name) (bit : Nat) : Stmt :=
  .exprStmt (.assign "&=" (.ident af)
    (.unary "~" (.binary "<<" (.bigintLit 1) (.bigintLit bit))))

/-- Witness oracle: every call throws `7`. -/
def oW : CallOracle := fun _ _ env => .thrown env (.num 7)

/-- Witness support names. -/
def anW : AssignedNames :=
  { nameMaker := ⟨["f"], []⟩, seekingVarName := "seeking_0",
    activeFns := some "activeFns_0", maybeNotEmptyIteratorName := none,
    maybeNotEmptyKeyIteratorName := none, orName := none, andName := none }

/-- Witness guard `seeking_0 === 1`. -/
def checkW : Expr := .binary "===" (.ident "seeking_0") (.num 1)

/-- Witness declarators `const callee_0 = f`. -/
def declsW : List (Name × Option Expr) := [("callee_0", some (.ident "f"))]

/-- Witness store: seeking 1, mask 0, `f` an object. -/
def envW : Env := [("seeking_0", .num 1), ("activeFns_0", .big 0), ("f", .obj)]

/-- Does a statement form a `try` statement? -/
def isTryStmt : Stmt → Bool
  | .tryStmt _ _ _ => true
  | _ => false

/-- The block body `{ return (a+b)*c; COMEHERE: with (_) { log(Function.return) } }`
    of the spec's capture + return-trailing scenario. -/
def returnTrailingInput : List Stmt :=
  [ .returnStmt (some (.binary "*" (.binary "+" (.ident "a") (.ident "b")) (.ident "c"))),
    .labeled "COMEHERE" (.withStmt (.ident "_") (.block
      [ .exprStmt (.call (.ident "log") [.member (.ident "Function") (.ident "return") false]) ])) ]

/-- The name pool for `returnTrailingInput` (its used identifiers, fresh counters). -/
def returnTrailingNm : NameMaker := ⟨["a", "b", "c", "log", "Function"], []⟩

/-- A block in which the `return` is not the first statement and a further
    statement `g();` follows the trailing COMEHERE block:
    `{ before(); return x; COMEHERE: with (_) {} g(); }`. -/
def returnTrailingFrameInput : List Stmt :=
  [ .exprStmt (.call (.ident "before") []),
    .returnStmt (some (.ident "x")),
    .labeled "COMEHERE" (.withStmt (.ident "_") (.block [])),
    .exprStmt (.call (.ident "g") []) ]

/-- The name pool for `returnTrailingFrameInput`. -/
def returnTrailingFrameNm : NameMaker := ⟨["before", "x", "g"], []⟩

/-! ## With-object parsing (`extractComeHereBlocks`, lines 380-426)

The with-object expression list is `[description?, initializer*]`.  A
leading string literal's value becomes the description — through JS
`it[0].value || null`, so an *empty* leading string also yields `null`.
Each remaining item should be an `=` assignment to a dotted identifier
chain; the guard in the source is

    if (!(types.isAssignmentExpression(initializer) || initializer.operator != '=')) {

with JS field-access semantics (`initializer.operator` is `undefined`, and
`undefined != '='` is true, when the node kind has no operator field), so
the guard fires only for a non-assignment node whose `operator` field is
`'='` — which no Babel node has.  A compound assignment such as `a += 1`
therefore slips through and is recorded from its `left`/`right` fields.
Non-assignments without `left`/`right` still get reported by the dotted
chain walk (`isIdentifier(undefined)`/`isMemberExpression(undefined)` are
false). -/
/-- `types.isAssignmentExpression`. -/
def isAssignmentExpression : Expr → Bool
  | .assign _ _ _ => true
  | _ => false

/-- JS read of the `.operator` field (`none` models `undefined`). -/
def jsOperatorField : Expr → Option String
  | .assign op _ _ => some op
  | .binary op _ _ => some op
  | .logical op _ _ => some op
  | .unary op _ => some op
  | _ => none

/-- JS loose `!=` between an `operator` field read and a string:
    `undefined != s` is true. -/
def looseOperatorNeq (o : Option String) (s : String) : Bool :=
  match o with
  | some t => t != s
  | none => true

/-- The source's malformed-initializer guard, verbatim:
    `!(isAssignmentExpression(initializer) || initializer.operator != '=')`. -/
def malformedGuard (item : Expr) : Bool :=
  !(isAssignmentExpression item || looseOperatorNeq (jsOperatorField item) "=")

/-- JS destructuring `let {left, right} = initializer` (`none` models both
    fields being `undefined`). -/
def jsLeftRight : Expr → Option (Expr × Expr)
  | .assign _ l r => some (l, r)
  | .binary _ l r => some (l, r)
  | .logical _ l r => some (l, r)
  | _ => none

/-- The `while (true)` dotted-chain walk: push the leaf property names and
    reverse, i.e. `a.b.c` gives `["a","b","c"]`; anything else fails. -/
def dottedChainParts : Expr → Option (List String)
  | .ident n => some [n]
  | .member obj (.ident pn) false =>
      match dottedChainParts obj with
      | some parts => some (parts ++ [pn])
      | none => none
  | _ => none

/-- The outcome for one with-object item after the description. -/
inductive InitItemOutcome where
  | skip
  | malformed (msg : String)
  | record (dotted : String) (rhs : Expr)

/-- `isIdentifier(initializer) && initializer.name === '_'`. -/
def isUnderscoreIdent : Expr → Bool
  | .ident n => n == "_"
  | _ => false

/-- Processing of one initializer item, mirroring the source loop body. -/
def processInitItem (item : Expr) : InitItemOutcome :=
  if isUnderscoreIdent item then .skip
  else if malformedGuard item then
    .malformed "COMEHERE: expected assignment."
  else
    match jsLeftRight item with
    | some (l, r) =>
        match dottedChainParts l with
        | some parts => .record (String.intercalate "." parts) r
        | none => .malformed "COMEHERE: expected assignment to dotted path."
    | none => .malformed "COMEHERE: expected assignment to dotted path."

/-- Fold `processInitItem` over the item list, accumulating recorded
    initializers and diagnostics. -/
def processInitItems : List Expr → List (String × Expr) × List String
  | [] => ([], [])
  | item :: rest =>
      let r := processInitItems rest
      match processInitItem item with
      | .skip => r
      | .malformed msg => (r.1, msg :: r.2)
      | .record dotted rhs => ((dotted, rhs) :: r.1, r.2)

/-- Parse a whole with-object: returns the description, the recorded
    initializers, and the diagnostics. -/
def parseWithObject (obj : Expr) : Option String × List (String × Expr) × List String :=
  let it := match obj with
    | .seqExpr es => es
    | e => [e]
  match it with
  | .str s :: rest =>
      (if s == "" then none else some s, processInitItems rest)
  | _ => (none, processInitItems it)

/-! ## The switch rewrite (`driveControlToComeHereBlock`, switch case)

When the goal is a switch case, the driver vends two fresh names, declares
`const caseToken = {}, caseExpr = <discriminant>;` immediately before the
switch, replaces the discriminant with `G ? caseToken : caseExpr`, empties
the goal case's consequent and inserts `case caseToken:` holding that
consequent immediately after the goal's case. -/
/-- At the goal's position: empty the goal case's consequent
    (`goal.node.consequent = []`) and `insertAfter` the sentinel case
    absorbing that consequent; all other cases pass through unchanged. -/
def rewriteSwitchCases (caseTokenName : Name) : List SwitchCase → Nat → List SwitchCase
  | [], _ => []
  | c :: cs, 0 =>
      SwitchCase.mk c.test []
        :: SwitchCase.mk (some (.ident caseTokenName)) c.consequent :: cs
  | c :: cs, i + 1 => c :: rewriteSwitchCases caseTokenName cs i

/-- The switch-case rewrite: takes the discriminant, the case list, the
    index of the goal's case, the guard `G`, and the name pool; returns the
    declaration inserted before the switch, the rewritten switch, and the
    updated pool. -/
def driveSwitchCase (disc : Expr) (cases : List SwitchCase) (goalIdx : Nat)
    (check : Expr) (nm : NameMaker) : Stmt × Stmt × NameMaker :=
  let rTok := nm.unusedName "caseToken"
  let caseTokenName := rTok.1
  let rExpr := rTok.2.unusedName "caseExpr"
  let caseExprName := rExpr.1
  let nm' := rExpr.2
  let newDiscriminant : Expr :=
    .cond check (.ident caseTokenName) (.ident caseExprName)
  let decl : Stmt :=
    .varDecl "const"
      [(caseTokenName, some .objectLit), (caseExprName, some disc)]
  (decl, .switchStmt newDiscriminant (rewriteSwitchCases caseTokenName cases goalIdx), nm')

/-- A three-case switch over `x` with the goal in the second case. -/
def swCases : List SwitchCase :=
  [ .mk (some (.num 1)) [.exprStmt (.call (.ident "f") [])],
    .mk (some (.num 2)) [.exprStmt (.call (.ident "g") [])],
    .mk none [.exprStmt (.call (.ident "h") [])] ]

/-- C7 helper: the catch-goal rewrite. -/
def driveCatchGoal (tryBlock : List Stmt) (catchParamName : Option Name)
    (check : Expr) (inits : List (String × Expr)) :
    List Stmt × List (String × Expr) :=
  let resolved : Option (Expr × List (String × Expr)) :=
    match catchParamName with
    | some n =>
        (match lookupAndConsumeParam ["catch"] n inits with
         | some r => some r
         | none => lookupAndConsumeParam [] n inits)
    | none => none
  let throwableExpression : Expr × List (String × Expr) :=
    match resolved with
    | some r => r
    | none =>
        (.newExpr (.member (.ident "globalThis") (.ident "Error") false) [], inits)
  let conditionalThrow : Stmt :=
    .ifStmt check (.block [.throwStmt throwableExpression.1]) none
  (conditionalThrow :: tryBlock, throwableExpression.2)

/-- The claim's wording of the throwable resolution order, for comparison
    with the source's: the bare caught-parameter initializer first, then the
    `catch.<name>`-qualified one, then a fresh `new globalThis.Error()`. -/
def claimCatchThrowable (catchParamName : Option Name)
    (inits : List (String × Expr)) : Expr :=
  match catchParamName with
  | some n =>
      (match lookupAndConsumeParam [] n inits with
       | some r => r.1
       | none =>
           match lookupAndConsumeParam ["catch"] n inits with
           | some r => r.1
           | none => .newExpr (.member (.ident "globalThis") (.ident "Error") false) [])
  | none => .newExpr (.member (.ident "globalThis") (.ident "Error") false) []

/-! ## The extraction/drive pipeline on a restricted module grammar

For the whole-pipeline claims (goal-id assignment, the blocks manifest, and
the seek-guard census) we run the transformer's phases on modules in which
COMEHERE blocks appear as direct children of the module or of a top-level
function declaration's body — the shape of the repo's own examples.  The
return-trailing pattern (a COMEHERE directly after a `return`) and the
`$$name` shorthand are separate passes settled by their own claims; inputs
are taken from this fragment.

Extraction mirrors `extractComeHereBlocks`: ids are `extracted.length + 1`
in traversal order; the with-object is parsed by `parseWithObject`; a goal
inside a function ensures the active prologue and its guard conjoins the
local flag; the guard body starts with `seeking = 0`.  Driving mirrors
`driveControlToComeHereBlock` for the two path shapes in the fragment: a
module-top goal adjusts nothing, and a goal in a top-level function
declaration synthesises `const callee = f, <args>` declarators, the
activation-bit set and a guarded call block inserted after the declaration
(later goals' blocks land closer to the declaration, as repeated
`insertAfter` does).  Argument resolution consumes initializers under the
prefixes `<fn>.p` then `p`; `this`-initializers select the `Reflect.apply`
receiver path, which is outside this fragment, so driving yields `none`
for them. -/
/-- An item of a top-level function's body. -/
inductive FnItem where
  | plain (s : Stmt)
  | come (obj : Expr) (body : List Stmt)

/-- A top-level module item. -/
inductive TopItem where
  | plain (s : Stmt)
  | fn (name : Name) (params : List Name) (body : List FnItem)
  | come (obj : Expr) (body : List Stmt)

/-- The record kept per extracted COMEHERE block. -/
structure ComeHereBlock where
  description : Option String
  seekingValue : Nat
  inits : List (String × Expr)
  fnIndex : Option Nat

/-- Extraction state: support names, the count of already-extracted goals,
    the goals, and the diagnostics. -/
structure XState where
  an : AssignedNames
  count : Nat
  goals : List ComeHereBlock
  errors : List String

/-- `ensureActiveFnBodyPrefixPresent` as seen from one COMEHERE extraction:
    no-op at module top or when the enclosing function's prologue `pro`
    (carried as `(flag, activeFns, bit)`) is already installed; otherwise
    allocate the flag and bit. -/
def ensureForCome (an : AssignedNames) (fnIdx : Option Nat)
    (pro : Option (Name × Name × Nat)) :
    Option (Name × Name × Nat) × AssignedNames :=
  match fnIdx with
  | none => (pro, an)
  | some _ =>
      match pro with
      | some p => (some p, an)
      | none =>
          let ra := an.requireActiveFns
          let rb := ra.2.nameMaker.unusedNameAndSuffixNum "isActiveCall"
          (some (rb.1.1, ra.1, rb.1.2), { ra.2 with nameMaker := rb.2 })

/-- The guard test for one COMEHERE block: a goal inside a function (whose
    prologue has just been ensured) conjoins the local flag. -/
def checkForCome (an : AssignedNames) (v : Int) (fnIdx : Option Nat)
    (pro : Option (Name × Name × Nat)) : Expr :=
  match fnIdx with
  | some _ =>
      match pro with
      | some p => seekingCheck an v (some [activeReadStmt p.1 p.2.1 p.2.2]) false
      | none => seekingCheck an v none false
  | none => seekingCheck an v none false

/-- Extract a single COMEHERE block: allocate its id, ensure the enclosing
    function's prologue (when inside one), build the guarded `if` whose
    body starts with the seek reset, and parse the with-object. -/
def extractCome (st : XState) (fnIdx : Option Nat)
    (pro : Option (Name × Name × Nat)) (obj : Expr) (body : List Stmt) :
    Stmt × Option (Name × Name × Nat) × XState :=
  let seekingValue := st.count + 1
  let ensured := ensureForCome st.an fnIdx pro
  let pro' := ensured.1
  let an' := ensured.2
  let check := checkForCome an' (seekingValue : Int) fnIdx pro'
  let guard : Stmt :=
    .ifStmt check (.block (seekResetStmt an'.seekingVarName :: body)) none
  let parsed := parseWithObject obj
  (guard, pro',
   { an := an', count := seekingValue,
     goals := st.goals ++ [⟨parsed.1, seekingValue, parsed.2.1, fnIdx⟩],
     errors := st.errors ++ parsed.2.2 })

/-- Extract the items of one function body, threading the prologue slot. -/
def extractFnItems (st : XState) (fnIdx : Nat) (pro : Option (Name × Name × Nat)) :
    List FnItem → List Stmt × Option (Name × Name × Nat) × XState
  | [] => ([], pro, st)
  | .plain s :: rest =>
      let r := extractFnItems st fnIdx pro rest
      (s :: r.1, r.2)
  | .come obj body :: rest =>
      let rc := extractCome st (some fnIdx) pro obj body
      let r := extractFnItems rc.2.2 fnIdx rc.2.1 rest
      (rc.1 :: r.1, r.2)

/-- Extract one function body; the installed prologue (if any goal forced
    one) sits at the top of the body. -/
def extractFn (st : XState) (fnIdx : Nat) (items : List FnItem) :
    List Stmt × XState :=
  let r := extractFnItems st fnIdx none items
  match r.2.1 with
  | some (flag, af, bit) =>
      (activeReadStmt flag af bit :: activeClearStmt af bit :: r.1, r.2.2)
  | none => (r.1, r.2.2)

/-- An extracted top-level item (functions keep their index so the drive
    phase can attach synthesised call blocks after them). -/
inductive OutItem where
  | plain (s : Stmt)
  | fnOut (idx : Nat) (name : Name) (params : List Name) (body : List Stmt)

/-- Extraction over the module, numbering top items from `idx`. -/
def extractTop (st : XState) (idx : Nat) : List TopItem → List OutItem × XState
  | [] => ([], st)
  | .plain s :: rest =>
      let r := extractTop st (idx + 1) rest
      (.plain s :: r.1, r.2)
  | .fn name params body :: rest =>
      let rf := extractFn st idx body
      let r := extractTop rf.2 (idx + 1) rest
      (.fnOut idx name params rf.1 :: r.1, r.2)
  | .come obj body :: rest =>
      let rc := extractCome st none none obj body
      let r := extractTop rc.2.2 (idx + 1) rest
      (.plain rc.1 :: r.1, r.2)

/-- Slots for `buildArgumentList`: fill unsatisfied parameters from the
    initializer list under one prefix, in parameter order. -/
def fillFromPfx (pfx : List String) :
    List (Name × Option (Name × Expr)) → List (String × Expr) →
    List (Name × Option (Name × Expr)) × List (String × Expr)
  | [], inits => ([], inits)
  | (p, slot) :: rest, inits =>
      match slot with
      | some _ =>
          let r := fillFromPfx pfx rest inits
          ((p, slot) :: r.1, r.2)
      | none =>
          match lookupAndConsumeParam pfx p inits with
          | some (e, inits') =>
              let r := fillFromPfx pfx rest inits'
              ((p, some (p, e)) :: r.1, r.2)
          | none =>
              let r := fillFromPfx pfx rest inits
              ((p, none) :: r.1, r.2)

/-- `buildArgumentList`'s prefix loop (descending specificity). -/
def fillFromPfxs : List (List String) →
    List (Name × Option (Name × Expr)) → List (String × Expr) →
    List (Name × Option (Name × Expr)) × List (String × Expr)
  | [], slots, inits => (slots, inits)
  | pfx :: pfxs, slots, inits =>
      let r := fillFromPfx pfx slots inits
      fillFromPfxs pfxs r.1 r.2

/-- Missing-argument warnings: in this fragment parameters are plain
    identifiers without defaults, so every unfilled slot is reported. -/
def unsuppliedWarnings (slots : List (Name × Option (Name × Expr))) : List String :=
  slots.filterMap (fun s =>
    match s.2 with
    | none => some ("COMEHERE: Missing arguments for function: " ++ s.1)
    | some _ => none)

/-- Turn the filled slots into ordered `const` declarators and the
    positional argument list, padding gaps before a supplied argument with
    `void 0` (gaps after the last supplied argument are not padded). -/
def declsAndArgs : List (Name × Option (Name × Expr)) →
    List (Name × Option Expr) × List Expr
  | [] => ([], [])
  | (_, slot) :: rest =>
      let r := declsAndArgs rest
      match slot with
      | some (name, init) =>
          ((name, some init) :: r.1, .ident name :: r.2)
      | none =>
          (r.1,
           if r.2.isEmpty then [] else .unary "void" (.num 0) :: r.2)

/-- `buildArgumentList` for the main call: returns the argument declarator
    list, the positional arguments, the remaining initializers and the
    missing-argument warnings. -/
def buildArgumentList (params : List Name) (pfxs : List (List String))
    (inits : List (String × Expr)) :
    List (Name × Option Expr) × List Expr × List (String × Expr) × List String :=
  let filled := fillFromPfxs pfxs (params.map (fun p => (p, none))) inits
  let da := declsAndArgs filled.1
  (da.1, da.2, filled.2, unsuppliedWarnings filled.1)

/-- Call synthesis for a goal directly inside a top-level function
    declaration (the `FunctionDeclaration` arm of the driver): consume
    initializers into declarators, vend `callee_<k>`, and build the guarded
    call block placed after the declaration.  `this`-initializers choose
    the `Reflect.apply` path, outside this fragment (`none`). -/
def driveGoalInFn (an : AssignedNames) (g : ComeHereBlock) (fnName : Name)
    (params : List Name) (fnBody : List Stmt) :
    Option (Stmt × AssignedNames × List String) :=
  match parseActivePrologue an fnBody with
  | none => none
  | some pro =>
      if (lookupAndConsumeParam [""] "this" g.inits).isSome then none
      else
        let pfxs : List (List String) := [[fnName], []]
        if pfxs.any (fun p => (lookupAndConsumeParam p "this" g.inits).isSome) then none
        else
          let rc := an.nameMaker.unusedName "callee"
          let calleeName := rc.1
          let an₁ := { an with nameMaker := rc.2 }
          let built := buildArgumentList params pfxs g.inits
          let declarators := (calleeName, some (Expr.ident fnName)) :: built.1
          let check := seekingCheck an₁ (g.seekingValue : Int) none false
          let raf := an₁.requireActiveFns
          let callBlock :=
            mkCallBlock raf.2 check declarators
              (.call (.ident calleeName) built.2.1) raf.1 pro.2
          let unconsumed :=
            if built.2.2.1.isEmpty then []
            else ["COMEHERE: Initializer(s) did not match variables needed."]
          some (callBlock, raf.2, built.2.2.2 ++ unconsumed)

/-- Find the extracted function with the given index. -/
def fnInfoOf (items : List OutItem) (idx : Nat) :
    Option (Name × List Name × List Stmt) :=
  match items with
  | [] => none
  | .fnOut i name params body :: rest =>
      if i == idx then some (name, params, body) else fnInfoOf rest idx
  | .plain _ :: rest => fnInfoOf rest idx

/-- Drive every goal in extraction order, accumulating the synthesised
    call blocks (tagged with their function's index) and diagnostics. -/
def driveGoals (an : AssignedNames) (items : List OutItem) :
    List ComeHereBlock → Option (AssignedNames × List (Nat × Stmt) × List String)
  | [] => some (an, [], [])
  | g :: rest =>
      match g.fnIndex with
      | none =>
          let errs :=
            if g.inits.isEmpty then []
            else ["COMEHERE: Initializer(s) did not match variables needed."]
          match driveGoals an items rest with
          | some r => some (r.1, r.2.1, errs ++ r.2.2)
          | none => none
      | some idx =>
          match fnInfoOf items idx with
          | none => none
          | some info =>
              match driveGoalInFn an g info.1 info.2.1 info.2.2 with
              | none => none
              | some r =>
                  match driveGoals r.2.1 items rest with
                  | some r' => some (r'.1, (idx, r.1) :: r'.2.1, r.2.2 ++ r'.2.2)
                  | none => none

/-- Reassemble the module: each function declaration is followed by its
    call blocks, with later goals' blocks nearer the declaration (repeated
    `insertAfter`). -/
def assembleModule (cbs : List (Nat × Stmt)) : List OutItem → List Stmt
  | [] => []
  | .plain s :: rest => s :: assembleModule cbs rest
  | .fnOut idx name params body :: rest =>
      .funcDecl name params body
        :: (((cbs.filter (fun p => p.1 == idx)).map Prod.snd).reverse
            ++ assembleModule cbs rest)

/-- The transform's result on the fragment. -/
structure TransformResult where
  code : List Stmt
  blocks : List (Option String)
  errors : List String

/-- The pipeline on the restricted grammar: extraction then driving then
    reassembly; `blocks` maps the goals to their descriptions.  (The
    emitted preamble declares the support names with `let`/`function`
    declarations and contains no seek guards; it is not modelled here.) -/
def transformMini (nm : NameMaker) (input : List TopItem) :
    Option TransformResult :=
  let an := AssignedNames.init nm
  let ex := extractTop ⟨an, 0, [], []⟩ 0 input
  match driveGoals ex.2.an ex.1 ex.2.goals with
  | none => none
  | some dr =>
      some { code := assembleModule dr.2.1 ex.1,
             blocks := ex.2.goals.map ComeHereBlock.description,
             errors := ex.2.errors ++ dr.2.2 }

/-- The with-objects of every COMEHERE block in a function body, in order. -/
def comeObjsFn : List FnItem → List Expr
  | [] => []
  | .plain _ :: rest => comeObjsFn rest
  | .come obj _ :: rest => obj :: comeObjsFn rest

/-- The with-objects of every COMEHERE block of the module, in order. -/
def comeObjs : List TopItem → List Expr
  | [] => []
  | .plain _ :: rest => comeObjs rest
  | .fn _ _ body :: rest => comeObjsFn body ++ comeObjs rest
  | .come obj _ :: rest => obj :: comeObjs rest

/-- The description the code computes for a with-object (through JS
    `it[0].value || null`, an empty leading string gives `none`). -/
def codeDescription (obj : Expr) : Option String :=
  (parseWithObject obj).1

/-- The description as the claim states it: the leading string literal's
    value, `null` only when the with-list has no leading string literal. -/
def claimDescription (obj : Expr) : Option String :=
  match (match obj with | .seqExpr es => es | e => [e]) with
  | .str s :: _ => some s
  | _ => none

/-- The one-block module `COMEHERE: with ("bar") {}` of the spec's trivial
scenario. -/
def trivialComeModule : List TopItem := [.come (.str "bar") []]

/-- Its transform result: exactly one guard `if (seeking_0 === 1) { seeking_0 = 0; }`
and the manifest `["bar"]`. -/
def trivialComeResult : TransformResult :=
  { code := [.ifStmt (.binary "===" (.ident "seeking_0") (.num 1))
      (.block [seekResetStmt "seeking_0"]) none],
    blocks := [some "bar"], errors := [] }

/-! ## The seek-guard census (C8)

A "guard testing `seek == id`" is an `if` statement whose test contains the
comparison `seek === id`.  We census two flavours: guards whose consequent
*contains* a `seek = 0` reset anywhere (the claim's reading — both the
extraction guard and the synthesised call block qualify), and guards whose
consequent *begins* with the reset (only the extraction guard qualifies).
The counts recurse through the whole tree, including arrow-function bodies
nested in expressions. -/
mutual

/-- Does an expression contain the comparison `seek === id`? -/
def containsSeekEqE (seek : Name) (id : Int) : Expr → Bool
  | .binary op l r =>
      (op == "===" &&
        (match l, r with
         | .ident m, .num k => m == seek && k == id
         | _, _ => false))
      || containsSeekEqE seek id l || containsSeekEqE seek id r
  | .member o p _ => containsSeekEqE seek id o || containsSeekEqE seek id p
  | .assign _ l r => containsSeekEqE seek id l || containsSeekEqE seek id r
  | .logical _ l r => containsSeekEqE seek id l || containsSeekEqE seek id r
  | .unary _ e => containsSeekEqE seek id e
  | .cond t c a =>
      containsSeekEqE seek id t || containsSeekEqE seek id c || containsSeekEqE seek id a
  | .call f args => containsSeekEqE seek id f || containsSeekEqEs seek id args
  | .newExpr f args => containsSeekEqE seek id f || containsSeekEqEs seek id args
  | .seqExpr es => containsSeekEqEs seek id es
  | .spread e => containsSeekEqE seek id e
  | .arrow _ b =>
      (match b with
       | .expr e => containsSeekEqE seek id e
       | .block _ => false)
  | _ => false

/-- `containsSeekEqE` over a list (arrow block bodies are not searched by
    the expression-level census; statements are censused separately). -/
def containsSeekEqEs (seek : Name) (id : Int) : List Expr → Bool
  | [] => false
  | e :: es => containsSeekEqE seek id e || containsSeekEqEs seek id es

end

/-- Does the consequent *begin* with `seek = 0;`? -/
def consFirstReset (seek : Name) : Stmt → Bool
  | .block (.exprStmt (.assign "=" (.ident m) (.num z)) :: _) => m == seek && z == 0
  | _ => false

mutual

/-- Does a statement contain `seek = 0` anywhere (as a statement or inside
    an expression)? -/
def containsResetE (seek : Name) : Expr → Bool
  | .assign op l r =>
      (op == "=" &&
        (match l, r with
         | .ident m, .num z => m == seek && z == 0
         | _, _ => false))
      || containsResetE seek l || containsResetE seek r
  | .member o p _ => containsResetE seek o || containsResetE seek p
  | .binary _ l r => containsResetE seek l || containsResetE seek r
  | .logical _ l r => containsResetE seek l || containsResetE seek r
  | .unary _ e => containsResetE seek e
  | .cond t c a => containsResetE seek t || containsResetE seek c || containsResetE seek a
  | .call f args => containsResetE seek f || containsResetEs seek args
  | .newExpr f args => containsResetE seek f || containsResetEs seek args
  | .seqExpr es => containsResetEs seek es
  | .spread e => containsResetE seek e
  | .arrow _ b =>
      (match b with
       | .expr e => containsResetE seek e
       | .block ss => containsResetSs seek ss)
  | _ => false

def containsResetEs (seek : Name) : List Expr → Bool
  | [] => false
  | e :: es => containsResetE seek e || containsResetEs seek es

def containsResetS (seek : Name) : Stmt → Bool
  | .exprStmt e => containsResetE seek e
  | .block ss => containsResetSs seek ss
  | .varDecl _ ds => containsResetDecls seek ds
  | .ifStmt t c a =>
      containsResetE seek t || containsResetS seek c || containsResetOptS seek a
  | .whileStmt t b => containsResetE seek t || containsResetS seek b
  | .doWhileStmt b t => containsResetS seek b || containsResetE seek t
  | .forStmt t u b =>
      containsResetOptE seek t || containsResetOptE seek u || containsResetS seek b
  | .forOfStmt _ rhs b => containsResetE seek rhs || containsResetS seek b
  | .forInStmt _ rhs b => containsResetE seek rhs || containsResetS seek b
  | .returnStmt arg => containsResetOptE seek arg
  | .labeled _ b => containsResetS seek b
  | .withStmt o b => containsResetE seek o || containsResetS seek b
  | .switchStmt d cs => containsResetE seek d || containsResetCases seek cs
  | .tryStmt b h f =>
      containsResetSs seek b || containsResetOptHandler seek h
        || containsResetOptSs seek f
  | .throwStmt e => containsResetE seek e
  | .funcDecl _ _ b => containsResetSs seek b
  | .empty => false

def containsResetSs (seek : Name) : List Stmt → Bool
  | [] => false
  | s :: ss => containsResetS seek s || containsResetSs seek ss

def containsResetOptE (seek : Name) : Option Expr → Bool
  | none => false
  | some e => containsResetE seek e

def containsResetOptS (seek : Name) : Option Stmt → Bool
  | none => false
  | some s => containsResetS seek s

def containsResetOptSs (seek : Name) : Option (List Stmt) → Bool
  | none => false
  | some ss => containsResetSs seek ss

def containsResetOptHandler (seek : Name) : Option Handler → Bool
  | none => false
  | some (.mk _ b) => containsResetSs seek b

def containsResetCases (seek : Name) : List SwitchCase → Bool
  | [] => false
  | .mk t c :: cs =>
      containsResetOptE seek t || containsResetSs seek c || containsResetCases seek cs

def containsResetDecls (seek : Name) : List (Name × Option Expr) → Bool
  | [] => false
  | (_, i) :: ds => containsResetOptE seek i || containsResetDecls seek ds

end

mutual

/-- Count, through expressions, of `if` statements (inside arrow bodies)
    that test `seek === id` and whose consequent begins with the reset. -/
def countDirectE (seek : Name) (id : Int) : Expr → Nat
  | .member o p _ => countDirectE seek id o + countDirectE seek id p
  | .assign _ l r => countDirectE seek id l + countDirectE seek id r
  | .binary _ l r => countDirectE seek id l + countDirectE seek id r
  | .logical _ l r => countDirectE seek id l + countDirectE seek id r
  | .unary _ e => countDirectE seek id e
  | .cond t c a =>
      countDirectE seek id t + countDirectE seek id c + countDirectE seek id a
  | .call f args => countDirectE seek id f + countDirectEs seek id args
  | .newExpr f args => countDirectE seek id f + countDirectEs seek id args
  | .seqExpr es => countDirectEs seek id es
  | .spread e => countDirectE seek id e
  | .arrow _ b => countDirectFnBody seek id b
  | _ => 0

def countDirectEs (seek : Name) (id : Int) : List Expr → Nat
  | [] => 0
  | e :: es => countDirectE seek id e + countDirectEs seek id es

def countDirectFnBody (seek : Name) (id : Int) : FnBody → Nat
  | .expr e => countDirectE seek id e
  | .block ss => countDirectSs seek id ss

/-- Count of guards that test `seek === id` and reset as their first
    action. -/
def countDirectS (seek : Name) (id : Int) : Stmt → Nat
  | .ifStmt t c a =>
      (if containsSeekEqE seek id t && consFirstReset seek c then 1 else 0)
        + countDirectE seek id t + countDirectS seek id c + countDirectOptS seek id a
  | .exprStmt e => countDirectE seek id e
  | .block ss => countDirectSs seek id ss
  | .varDecl _ ds => countDirectDecls seek id ds
  | .whileStmt t b => countDirectE seek id t + countDirectS seek id b
  | .doWhileStmt b t => countDirectS seek id b + countDirectE seek id t
  | .forStmt t u b =>
      countDirectOptE seek id t + countDirectOptE seek id u + countDirectS seek id b
  | .forOfStmt _ rhs b => countDirectE seek id rhs + countDirectS seek id b
  | .forInStmt _ rhs b => countDirectE seek id rhs + countDirectS seek id b
  | .returnStmt arg => countDirectOptE seek id arg
  | .labeled _ b => countDirectS seek id b
  | .withStmt o b => countDirectE seek id o + countDirectS seek id b
  | .switchStmt d cs => countDirectE seek id d + countDirectCases seek id cs
  | .tryStmt b h f =>
      countDirectSs seek id b + countDirectOptHandler seek id h
        + countDirectOptSs seek id f
  | .throwStmt e => countDirectE seek id e
  | .funcDecl _ _ b => countDirectSs seek id b
  | .empty => 0

def countDirectSs (seek : Name) (id : Int) : List Stmt → Nat
  | [] => 0
  | s :: ss => countDirectS seek id s + countDirectSs seek id ss

def countDirectOptE (seek : Name) (id : Int) : Option Expr → Nat
  | none => 0
  | some e => countDirectE seek id e

def countDirectOptS (seek : Name) (id : Int) : Option Stmt → Nat
  | none => 0
  | some s => countDirectS seek id s

def countDirectOptSs (seek : Name) (id : Int) : Option (List Stmt) → Nat
  | none => 0
  | some ss => countDirectSs seek id ss

def countDirectOptHandler (seek : Name) (id : Int) : Option Handler → Nat
  | none => 0
  | some (.mk _ b) => countDirectSs seek id b

def countDirectCases (seek : Name) (id : Int) : List SwitchCase → Nat
  | [] => 0
  | .mk t c :: cs =>
      countDirectOptE seek id t + countDirectSs seek id c
        + countDirectCases seek id cs

def countDirectDecls (seek : Name) (id : Int) : List (Name × Option Expr) → Nat
  | [] => 0
  | (_, i) :: ds => countDirectOptE seek id i + countDirectDecls seek id ds

end

mutual

/-- Count of guards that test `seek === id` and contain a `seek = 0` reset
    anywhere in their consequent — the claim's census. -/
def countAnyS (seek : Name) (id : Int) : Stmt → Nat
  | .ifStmt t c a =>
      (if containsSeekEqE seek id t && containsResetS seek c then 1 else 0)
        + countAnyE seek id t + countAnyS seek id c + countAnyOptS seek id a
  | .exprStmt e => countAnyE seek id e
  | .block ss => countAnySs seek id ss
  | .varDecl _ ds => countAnyDecls seek id ds
  | .whileStmt t b => countAnyE seek id t + countAnyS seek id b
  | .doWhileStmt b t => countAnyS seek id b + countAnyE seek id t
  | .forStmt t u b =>
      countAnyOptE seek id t + countAnyOptE seek id u + countAnyS seek id b
  | .forOfStmt _ rhs b => countAnyE seek id rhs + countAnyS seek id b
  | .forInStmt _ rhs b => countAnyE seek id rhs + countAnyS seek id b
  | .returnStmt arg => countAnyOptE seek id arg
  | .labeled _ b => countAnyS seek id b
  | .withStmt o b => countAnyE seek id o + countAnyS seek id b
  | .switchStmt d cs => countAnyE seek id d + countAnyCases seek id cs
  | .tryStmt b h f =>
      countAnySs seek id b + countAnyOptHandler seek id h + countAnyOptSs seek id f
  | .throwStmt e => countAnyE seek id e
  | .funcDecl _ _ b => countAnySs seek id b
  | .empty => 0

def countAnyE (seek : Name) (id : Int) : Expr → Nat
  | .member o p _ => countAnyE seek id o + countAnyE seek id p
  | .assign _ l r => countAnyE seek id l + countAnyE seek id r
  | .binary _ l r => countAnyE seek id l + countAnyE seek id r
  | .logical _ l r => countAnyE seek id l + countAnyE seek id r
  | .unary _ e => countAnyE seek id e
  | .cond t c a => countAnyE seek id t + countAnyE seek id c + countAnyE seek id a
  | .call f args => countAnyE seek id f + countAnyEs seek id args
  | .newExpr f args => countAnyE seek id f + countAnyEs seek id args
  | .seqExpr es => countAnyEs seek id es
  | .spread e => countAnyE seek id e
  | .arrow _ b => countAnyFnBody seek id b
  | _ => 0

def countAnyEs (seek : Name) (id : Int) : List Expr → Nat
  | [] => 0
  | e :: es => countAnyE seek id e + countAnyEs seek id es

def countAnyFnBody (seek : Name) (id : Int) : FnBody → Nat
  | .expr e => countAnyE seek id e
  | .block ss => countAnySs seek id ss

def countAnySs (seek : Name) (id : Int) : List Stmt → Nat
  | [] => 0
  | s :: ss => countAnyS seek id s + countAnySs seek id ss

def countAnyOptE (seek : Name) (id : Int) : Option Expr → Nat
  | none => 0
  | some e => countAnyE seek id e

def countAnyOptS (seek : Name) (id : Int) : Option Stmt → Nat
  | none => 0
  | some s => countAnyS seek id s

def countAnyOptSs (seek : Name) (id : Int) : Option (List Stmt) → Nat
  | none => 0
  | some ss => countAnySs seek id ss

def countAnyOptHandler (seek : Name) (id : Int) : Option Handler → Nat
  | none => 0
  | some (.mk _ b) => countAnySs seek id b

def countAnyCases (seek : Name) (id : Int) : List SwitchCase → Nat
  | [] => 0
  | .mk t c :: cs =>
      countAnyOptE seek id t + countAnySs seek id c + countAnyCases seek id cs

def countAnyDecls (seek : Name) (id : Int) : List (Name × Option Expr) → Nat
  | [] => 0
  | (_, i) :: ds => countAnyOptE seek id i + countAnyDecls seek id ds

end

/-! ## C8: the seek-guard census over the whole pipeline -/
/-- Input cleanliness for the census: no user statement, COMEHERE body or
    with-object of the module carries direct-reset guards for this census. -/
def cleanFnItems (seek : Name) (id : Int) : List FnItem → Bool
  | [] => true
  | .plain s :: rest => (countDirectS seek id s == 0) && cleanFnItems seek id rest
  | .come obj body :: rest =>
      (countDirectE seek id obj == 0) && (countDirectSs seek id body == 0)
        && cleanFnItems seek id rest

def cleanTop (seek : Name) (id : Int) : List TopItem → Bool
  | [] => true
  | .plain s :: rest => (countDirectS seek id s == 0) && cleanTop seek id rest
  | .fn _ _ body :: rest => cleanFnItems seek id body && cleanTop seek id rest
  | .come obj body :: rest =>
      (countDirectE seek id obj == 0) && (countDirectSs seek id body == 0)
        && cleanTop seek id rest

/-- Slot cleanliness. -/
def slotClean (seek : Name) (id : Int) (s : Name × Option (Name × Expr)) : Prop :=
  match s.2 with
  | some q => countDirectE seek id q.2 = 0
  | none => True

def countDirectItems (seek : Name) (id : Int) : List OutItem → Nat
  | [] => 0
  | .plain s :: rest => countDirectS seek id s + countDirectItems seek id rest
  | .fnOut _ _ _ body :: rest =>
      countDirectSs seek id body + countDirectItems seek id rest

def c8Nm : NameMaker := ⟨["f"], []⟩

def c8Input : List TopItem := [.fn "f" [] [.come (.ident "_") []]]

def c8Res : TransformResult :=
  (transformMini c8Nm c8Input).getD ⟨[], [], []⟩

/-! ## The `$$`-capture pass (`desugarDollarDollarVarShorthand`)

The pass (1) traverses the AST collecting every `Identifier` whose name
begins with `$$` (the enclosing-function chains are what
`functionsDeepestToShallowest` walks: `Function` ancestors only — the
`Program` node is never yielded, since `p.isFunction()` is false for it);
(2) skips any name one of whose occurrences is in a declaring position
(`isDeclared`: declarator ids, declaration names, parameters — in this
embedding binder positions are plain `Name`s, so they are recorded
separately rather than as uses; catch parameters, which `isDeclared` does
not cover, stay outside the fragment); (3) for each remaining name takes
the deepest common function ancestor (first surviving entry of the
insertion-ordered map seeded from the first use's deepest-to-shallowest
chain) and, when one exists, collects a `$$x = ['undefined', void 0]`
declarator for it; (4) rewrites every use not under a `SpreadElement` to
`name[1]`, sequence-wrapping assignment left-hand sides so `name[0]`
receives the right-hand side's source text with the reversed operator
appended; and (5) unshifts one `const` declaration per collected function
node.  `genExpr` stands in for `@babel/generator`'s `generate(...).code`
(no precedence-driven parenthesisation). -/
def ddPfx (n : String) : Bool := n.take 2 == "$$"

def strReverse (s : String) : String := String.mk s.data.reverse

mutual

def genExpr : Expr → String
  | .ident n => n
  | .num i => toString i
  | .str s => "\x22" ++ s ++ "\x22"
  | .bigintLit v => toString v ++ "n"
  | .boolLit b => if b then "true" else "false"
  | .nullLit => "null"
  | .objectLit => "\x7b\x7d"
  | .member o p true => genExpr o ++ "[" ++ genExpr p ++ "]"
  | .member o p false => genExpr o ++ "." ++ genExpr p
  | .assign op l r => genExpr l ++ " " ++ op ++ " " ++ genExpr r
  | .binary op l r => genExpr l ++ " " ++ op ++ " " ++ genExpr r
  | .logical op l r => genExpr l ++ " " ++ op ++ " " ++ genExpr r
  | .unary op e => op ++ " " ++ genExpr e
  | .cond t c a => genExpr t ++ " ? " ++ genExpr c ++ " : " ++ genExpr a
  | .call f args => genExpr f ++ "(" ++ genExprs args ++ ")"
  | .newExpr f args => "new " ++ genExpr f ++ "(" ++ genExprs args ++ ")"
  | .seqExpr es => genExprs es
  | .spread e => "..." ++ genExpr e
  | .arrow ps b => "(" ++ String.intercalate ", " ps ++ ") => " ++ genFnBody b
  | .arrayLit es => "[" ++ genExprs es ++ "]"

def genExprs : List Expr → String
  | [] => ""
  | [e] => genExpr e
  | e :: rest => genExpr e ++ ", " ++ genExprs rest

def genFnBody : FnBody → String
  | .expr e => genExpr e
  | .block _ => "\x7b ... \x7d"

end

/-- The use census: `$$`-named identifier occurrences paired with their
    enclosing-function chains (deepest first), the `$$` names seen in
    binder positions, and the preorder function-numbering counter. -/
abbrev DDAcc := List (String × List Nat) × List String × Nat

mutual

def collectDDE (ch : List Nat) : Expr → DDAcc → DDAcc
  | .ident n, (us, ds, k) => (if ddPfx n then us ++ [(n, ch)] else us, ds, k)
  | .member o p _, acc => collectDDE ch p (collectDDE ch o acc)
  | .assign _ l r, acc => collectDDE ch r (collectDDE ch l acc)
  | .binary _ l r, acc => collectDDE ch r (collectDDE ch l acc)
  | .logical _ l r, acc => collectDDE ch r (collectDDE ch l acc)
  | .unary _ e, acc => collectDDE ch e acc
  | .cond t c a, acc => collectDDE ch a (collectDDE ch c (collectDDE ch t acc))
  | .call f args, acc => collectDDEs ch args (collectDDE ch f acc)
  | .newExpr f args, acc => collectDDEs ch args (collectDDE ch f acc)
  | .seqExpr es, acc => collectDDEs ch es acc
  | .spread e, acc => collectDDE ch e acc
  | .arrow ps b, (us, ds, k) =>
      collectDDFnBody (k :: ch) b (us, ds ++ ps.filter ddPfx, k + 1)
  | .arrayLit es, acc => collectDDEs ch es acc
  | _, acc => acc

def collectDDEs (ch : List Nat) : List Expr → DDAcc → DDAcc
  | [], acc => acc
  | e :: es, acc => collectDDEs ch es (collectDDE ch e acc)

def collectDDFnBody (ch : List Nat) : FnBody → DDAcc → DDAcc
  | .expr e, acc => collectDDE ch e acc
  | .block ss, acc => collectDDSs ch ss acc

def collectDDS (ch : List Nat) : Stmt → DDAcc → DDAcc
  | .exprStmt e, acc => collectDDE ch e acc
  | .block ss, acc => collectDDSs ch ss acc
  | .varDecl _ ds, acc => collectDDDecls ch ds acc
  | .ifStmt t c a, acc => collectDDOptS ch a (collectDDS ch c (collectDDE ch t acc))
  | .whileStmt t b, acc => collectDDS ch b (collectDDE ch t acc)
  | .doWhileStmt b t, acc => collectDDE ch t (collectDDS ch b acc)
  | .forStmt t u b, acc =>
      collectDDS ch b (collectDDOptE ch u (collectDDOptE ch t acc))
  | .forOfStmt _ rhs b, acc => collectDDS ch b (collectDDE ch rhs acc)
  | .forInStmt _ rhs b, acc => collectDDS ch b (collectDDE ch rhs acc)
  | .returnStmt a, acc => collectDDOptE ch a acc
  | .labeled _ b, acc => collectDDS ch b acc
  | .withStmt o b, acc => collectDDS ch b (collectDDE ch o acc)
  | .switchStmt d cs, acc => collectDDCases ch cs (collectDDE ch d acc)
  | .tryStmt b h f, acc =>
      collectDDOptSs ch f (collectDDOptHandler ch h (collectDDSs ch b acc))
  | .throwStmt e, acc => collectDDE ch e acc
  | .funcDecl name ps body, (us, ds, k) =>
      collectDDSs (k :: ch) body
        (us, ds ++ (if ddPfx name then [name] else []) ++ ps.filter ddPfx, k + 1)
  | .empty, acc => acc

def collectDDSs (ch : List Nat) : List Stmt → DDAcc → DDAcc
  | [], acc => acc
  | s :: ss, acc => collectDDSs ch ss (collectDDS ch s acc)

def collectDDOptE (ch : List Nat) : Option Expr → DDAcc → DDAcc
  | none, acc => acc
  | some e, acc => collectDDE ch e acc

def collectDDOptS (ch : List Nat) : Option Stmt → DDAcc → DDAcc
  | none, acc => acc
  | some s, acc => collectDDS ch s acc

def collectDDOptSs (ch : List Nat) : Option (List Stmt) → DDAcc → DDAcc
  | none, acc => acc
  | some ss, acc => collectDDSs ch ss acc

def collectDDOptHandler (ch : List Nat) : Option Handler → DDAcc → DDAcc
  | none, acc => acc
  | some (.mk _ b), acc => collectDDSs ch b acc

def collectDDCases (ch : List Nat) : List SwitchCase → DDAcc → DDAcc
  | [], acc => acc
  | .mk t c :: cs, acc =>
      collectDDCases ch cs (collectDDSs ch c (collectDDOptE ch t acc))

def collectDDDecls (ch : List Nat) : List (Name × Option Expr) → DDAcc → DDAcc
  | [], acc => acc
  | (n, i) :: rest, (us, ds, k) =>
      collectDDDecls ch rest
        (collectDDOptE ch i (us, ds ++ (if ddPfx n then [n] else []), k))

end

def ddAddName (acc : List String) (n : String) : List String :=
  if acc.contains n then acc else acc ++ [n]

/-- The `Map` key order: names in order of first traversal encounter. -/
def ddFirstNames (us : List (String × List Nat)) : List String :=
  us.foldl (fun a p => ddAddName a p.1) []

def ddChainsOf (n : String) (us : List (String × List Nat)) : List (List Nat) :=
  (us.filter (fun p => p.1 == n)).map Prod.snd

/-- Seed the map from the first use's chain (deepest first), intersect
    with the others, take the first surviving entry. -/
def ddCommonAncestor : List (List Nat) → Option Nat
  | [] => none
  | c1 :: rest => (c1.filter (fun f => rest.all (fun c => c.contains f))).head?

def ddAddGroup (f : Nat) (n : String) :
    List (Nat × List String) → List (Nat × List String)
  | [] => [(f, [n])]
  | (g, ns) :: rest =>
      if g == f then (g, ns ++ [n]) :: rest else (g, ns) :: ddAddGroup f n rest

mutual

def rewriteDDE (name : String) : Expr → Expr
  | .ident n => if n == name then .member (.ident n) (.num 1) true else .ident n
  | .member o p c => .member (rewriteDDE name o) (rewriteDDE name p) c
  | .assign op l r =>
      match l with
      | .ident n =>
          if n == name then
            .seqExpr
              [.assign "=" (.member (.ident name) (.num 0) true)
                 (.str (genExpr r ++ " " ++ strReverse op)),
               .assign op (.member (.ident n) (.num 1) true) (rewriteDDE name r)]
          else .assign op (.ident n) (rewriteDDE name r)
      | _ => .assign op (rewriteDDE name l) (rewriteDDE name r)
  | .binary op l r => .binary op (rewriteDDE name l) (rewriteDDE name r)
  | .logical op l r => .logical op (rewriteDDE name l) (rewriteDDE name r)
  | .unary op e => .unary op (rewriteDDE name e)
  | .cond t c a => .cond (rewriteDDE name t) (rewriteDDE name c) (rewriteDDE name a)
  | .call f args => .call (rewriteDDE name f) (rewriteDDEs name args)
  | .newExpr f args => .newExpr (rewriteDDE name f) (rewriteDDEs name args)
  | .seqExpr es => .seqExpr (rewriteDDEs name es)
  | .spread e =>
      match e with
      | .ident n => .spread (.ident n)
      | _ => .spread (rewriteDDE name e)
  | .arrow ps b => .arrow ps (rewriteDDFnBody name b)
  | .arrayLit es => .arrayLit (rewriteDDEs name es)
  | e => e

def rewriteDDEs (name : String) : List Expr → List Expr
  | [] => []
  | e :: es => rewriteDDE name e :: rewriteDDEs name es

def rewriteDDFnBody (name : String) : FnBody → FnBody
  | .expr e => .expr (rewriteDDE name e)
  | .block ss => .block (rewriteDDSs name ss)

def rewriteDDS (name : String) : Stmt → Stmt
  | .exprStmt e => .exprStmt (rewriteDDE name e)
  | .block ss => .block (rewriteDDSs name ss)
  | .varDecl k ds => .varDecl k (rewriteDDDecls name ds)
  | .ifStmt t c a =>
      .ifStmt (rewriteDDE name t) (rewriteDDS name c) (rewriteDDOptS name a)
  | .whileStmt t b => .whileStmt (rewriteDDE name t) (rewriteDDS name b)
  | .doWhileStmt b t => .doWhileStmt (rewriteDDS name b) (rewriteDDE name t)
  | .forStmt t u b =>
      .forStmt (rewriteDDOptE name t) (rewriteDDOptE name u) (rewriteDDS name b)
  | .forOfStmt bn rhs b => .forOfStmt bn (rewriteDDE name rhs) (rewriteDDS name b)
  | .forInStmt bn rhs b => .forInStmt bn (rewriteDDE name rhs) (rewriteDDS name b)
  | .returnStmt a => .returnStmt (rewriteDDOptE name a)
  | .labeled l b => .labeled l (rewriteDDS name b)
  | .withStmt o b => .withStmt (rewriteDDE name o) (rewriteDDS name b)
  | .switchStmt d cs => .switchStmt (rewriteDDE name d) (rewriteDDCases name cs)
  | .tryStmt b h f =>
      .tryStmt (rewriteDDSs name b) (rewriteDDOptHandler name h)
        (rewriteDDOptSs name f)
  | .throwStmt e => .throwStmt (rewriteDDE name e)
  | .funcDecl fn ps body => .funcDecl fn ps (rewriteDDSs name body)
  | .empty => .empty

def rewriteDDSs (name : String) : List Stmt → List Stmt
  | [] => []
  | s :: ss => rewriteDDS name s :: rewriteDDSs name ss

def rewriteDDOptE (name : String) : Option Expr → Option Expr
  | none => none
  | some e => some (rewriteDDE name e)

def rewriteDDOptS (name : String) : Option Stmt → Option Stmt
  | none => none
  | some s => some (rewriteDDS name s)

def rewriteDDOptSs (name : String) : Option (List Stmt) → Option (List Stmt)
  | none => none
  | some ss => some (rewriteDDSs name ss)

def rewriteDDOptHandler (name : String) : Option Handler → Option Handler
  | none => none
  | some (.mk p b) => some (.mk p (rewriteDDSs name b))

def rewriteDDCases (name : String) : List SwitchCase → List SwitchCase
  | [] => []
  | .mk t c :: cs =>
      .mk (rewriteDDOptE name t) (rewriteDDSs name c) :: rewriteDDCases name cs

def rewriteDDDecls (name : String) : List (Name × Option Expr) → List (Name × Option Expr)
  | [] => []
  | (n, i) :: rest => (n, rewriteDDOptE name i) :: rewriteDDDecls name rest

end

/-- One `const` declaration grouping a function's collected declarators:
    `const $$x = ['undefined', void 0], ...;`. -/
def ddDeclOf (ns : List String) : Stmt :=
  .varDecl "const"
    (ns.map (fun n =>
      (n, some (.arrayLit [.str "undefined", .unary "void" (.num 0)]))))

/-- `fnNode.body.body.unshift(...)` — defined only for block bodies; an
    expression-bodied arrow has no `body.body` (the source would throw,
    and the pass runs after blockify). -/
def ddMaybePrepB (gs : List (Nat × List String)) (k : Nat) (b : FnBody) : FnBody :=
  match (gs.find? (fun g => g.1 == k)).map Prod.snd with
  | some ns =>
      match b with
      | .block ss => .block (ddDeclOf ns :: ss)
      | .expr e => .expr e
  | none => b

mutual

def insertDDE (gs : List (Nat × List String)) : Expr → Nat → Expr × Nat
  | .member o p c, k =>
      let ro := insertDDE gs o k
      let rp := insertDDE gs p ro.2
      (.member ro.1 rp.1 c, rp.2)
  | .assign op l r, k =>
      let rl := insertDDE gs l k
      let rr := insertDDE gs r rl.2
      (.assign op rl.1 rr.1, rr.2)
  | .binary op l r, k =>
      let rl := insertDDE gs l k
      let rr := insertDDE gs r rl.2
      (.binary op rl.1 rr.1, rr.2)
  | .logical op l r, k =>
      let rl := insertDDE gs l k
      let rr := insertDDE gs r rl.2
      (.logical op rl.1 rr.1, rr.2)
  | .unary op e, k =>
      let re := insertDDE gs e k
      (.unary op re.1, re.2)
  | .cond t c a, k =>
      let rt := insertDDE gs t k
      let rc := insertDDE gs c rt.2
      let ra := insertDDE gs a rc.2
      (.cond rt.1 rc.1 ra.1, ra.2)
  | .call f args, k =>
      let rf := insertDDE gs f k
      let ra := insertDDEs gs args rf.2
      (.call rf.1 ra.1, ra.2)
  | .newExpr f args, k =>
      let rf := insertDDE gs f k
      let ra := insertDDEs gs args rf.2
      (.newExpr rf.1 ra.1, ra.2)
  | .seqExpr es, k =>
      let r := insertDDEs gs es k
      (.seqExpr r.1, r.2)
  | .spread e, k =>
      let re := insertDDE gs e k
      (.spread re.1, re.2)
  | .arrow ps b, k =>
      let rb := insertDDFnBody gs b (k + 1)
      (.arrow ps (ddMaybePrepB gs k rb.1), rb.2)
  | .arrayLit es, k =>
      let r := insertDDEs gs es k
      (.arrayLit r.1, r.2)
  | e, k => (e, k)

def insertDDEs (gs : List (Nat × List String)) : List Expr → Nat → List Expr × Nat
  | [], k => ([], k)
  | e :: es, k =>
      let re := insertDDE gs e k
      let rr := insertDDEs gs es re.2
      (re.1 :: rr.1, rr.2)

def insertDDFnBody (gs : List (Nat × List String)) : FnBody → Nat → FnBody × Nat
  | .expr e, k =>
      let re := insertDDE gs e k
      (.expr re.1, re.2)
  | .block ss, k =>
      let r := insertDDSs gs ss k
      (.block r.1, r.2)

def insertDDS (gs : List (Nat × List String)) : Stmt → Nat → Stmt × Nat
  | .exprStmt e, k =>
      let re := insertDDE gs e k
      (.exprStmt re.1, re.2)
  | .block ss, k =>
      let r := insertDDSs gs ss k
      (.block r.1, r.2)
  | .varDecl kd ds, k =>
      let r := insertDDDecls gs ds k
      (.varDecl kd r.1, r.2)
  | .ifStmt t c a, k =>
      let rt := insertDDE gs t k
      let rc := insertDDS gs c rt.2
      let ra := insertDDOptS gs a rc.2
      (.ifStmt rt.1 rc.1 ra.1, ra.2)
  | .whileStmt t b, k =>
      let rt := insertDDE gs t k
      let rb := insertDDS gs b rt.2
      (.whileStmt rt.1 rb.1, rb.2)
  | .doWhileStmt b t, k =>
      let rb := insertDDS gs b k
      let rt := insertDDE gs t rb.2
      (.doWhileStmt rb.1 rt.1, rt.2)
  | .forStmt t u b, k =>
      let rt := insertDDOptE gs t k
      let ru := insertDDOptE gs u rt.2
      let rb := insertDDS gs b ru.2
      (.forStmt rt.1 ru.1 rb.1, rb.2)
  | .forOfStmt bn rhs b, k =>
      let rr := insertDDE gs rhs k
      let rb := insertDDS gs b rr.2
      (.forOfStmt bn rr.1 rb.1, rb.2)
  | .forInStmt bn rhs b, k =>
      let rr := insertDDE gs rhs k
      let rb := insertDDS gs b rr.2
      (.forInStmt bn rr.1 rb.1, rb.2)
  | .returnStmt a, k =>
      let ra := insertDDOptE gs a k
      (.returnStmt ra.1, ra.2)
  | .labeled l b, k =>
      let rb := insertDDS gs b k
      (.labeled l rb.1, rb.2)
  | .withStmt o b, k =>
      let ro := insertDDE gs o k
      let rb := insertDDS gs b ro.2
      (.withStmt ro.1 rb.1, rb.2)
  | .switchStmt d cs, k =>
      let rd := insertDDE gs d k
      let rc := insertDDCases gs cs rd.2
      (.switchStmt rd.1 rc.1, rc.2)
  | .tryStmt b h f, k =>
      let rb := insertDDSs gs b k
      let rh := insertDDOptHandler gs h rb.2
      let rf := insertDDOptSs gs f rh.2
      (.tryStmt rb.1 rh.1 rf.1, rf.2)
  | .throwStmt e, k =>
      let re := insertDDE gs e k
      (.throwStmt re.1, re.2)
  | .funcDecl fn ps body, k =>
      let rb := insertDDSs gs body (k + 1)
      (.funcDecl fn ps
        (match (gs.find? (fun g => g.1 == k)).map Prod.snd with
         | some ns => ddDeclOf ns :: rb.1
         | none => rb.1), rb.2)
  | .empty, k => (.empty, k)

def insertDDSs (gs : List (Nat × List String)) : List Stmt → Nat → List Stmt × Nat
  | [], k => ([], k)
  | s :: ss, k =>
      let rs := insertDDS gs s k
      let rr := insertDDSs gs ss rs.2
      (rs.1 :: rr.1, rr.2)

def insertDDOptE (gs : List (Nat × List String)) : Option Expr → Nat → Option Expr × Nat
  | none, k => (none, k)
  | some e, k =>
      let re := insertDDE gs e k
      (some re.1, re.2)

def insertDDOptS (gs : List (Nat × List String)) : Option Stmt → Nat → Option Stmt × Nat
  | none, k => (none, k)
  | some s, k =>
      let rs := insertDDS gs s k
      (some rs.1, rs.2)

def insertDDOptSs (gs : List (Nat × List String)) :
    Option (List Stmt) → Nat → Option (List Stmt) × Nat
  | none, k => (none, k)
  | some ss, k =>
      let r := insertDDSs gs ss k
      (some r.1, r.2)

def insertDDOptHandler (gs : List (Nat × List String)) :
    Option Handler → Nat → Option Handler × Nat
  | none, k => (none, k)
  | some (.mk p b), k =>
      let r := insertDDSs gs b k
      (some (.mk p r.1), r.2)

def insertDDCases (gs : List (Nat × List String)) :
    List SwitchCase → Nat → List SwitchCase × Nat
  | [], k => ([], k)
  | .mk t c :: cs, k =>
      let rt := insertDDOptE gs t k
      let rc := insertDDSs gs c rt.2
      let rr := insertDDCases gs cs rc.2
      (.mk rt.1 rc.1 :: rr.1, rr.2)

def insertDDDecls (gs : List (Nat × List String)) :
    List (Name × Option Expr) → Nat → List (Name × Option Expr) × Nat
  | [], k => ([], k)
  | (n, i) :: rest, k =>
      let ri := insertDDOptE gs i k
      let rr := insertDDDecls gs rest ri.2
      ((n, ri.1) :: rr.1, rr.2)

end

/-- The whole pass over a module's statement list. -/
def desugarDollarDollarVarShorthand (prog : List Stmt) : List Stmt :=
  let col := collectDDSs [] prog ([], [], 0)
  let names := ddFirstNames col.1
  let active := names.filter (fun n => !(col.2.1.contains n))
  let groups := active.foldl (fun acc n =>
    match ddCommonAncestor (ddChainsOf n col.1) with
    | some f => ddAddGroup f n acc
    | none => acc) []
  let rewritten := active.foldl (fun m n => rewriteDDSs n m) prog
  (insertDDSs groups rewritten 0).1

theorem maybeBlockify_maybeBlockify (s : Stmt) :
    maybeBlockify (maybeBlockify s) = maybeBlockify s := by
  cases s <;> rfl

theorem maybeBlockifyAlt_maybeBlockifyAlt (s : Stmt) :
    maybeBlockifyAlt (maybeBlockifyAlt s) = maybeBlockifyAlt s := by
  cases s <;> rfl

theorem blockifyS_maybeBlockify (s : Stmt) (h : blockifyS s = s) :
    blockifyS (maybeBlockify s) = maybeBlockify s := by
  cases s
  case block ss => exact h
  all_goals exact (show Stmt.block [blockifyS _] = Stmt.block [_] by rw [h])

theorem blockifyS_maybeBlockifyAlt (s : Stmt) (h : blockifyS s = s) :
    blockifyS (maybeBlockifyAlt s) = maybeBlockifyAlt s := by
  cases s
  case block ss => exact h
  case ifStmt t c a => exact h
  all_goals exact (show Stmt.block [blockifyS _] = Stmt.block [_] by rw [h])

mutual

theorem blockifyE_idem : ∀ e : Expr, blockifyE (blockifyE e) = blockifyE e
  | .ident _ => rfl
  | .num _ => rfl
  | .str _ => rfl
  | .bigintLit _ => rfl
  | .boolLit _ => rfl
  | .nullLit => rfl
  | .objectLit => rfl
  | .member o p _ => by
      simp only [blockifyE, blockifyE_idem o, blockifyE_idem p]
  | .assign _ l r => by
      simp only [blockifyE, blockifyE_idem l, blockifyE_idem r]
  | .binary _ l r => by
      simp only [blockifyE, blockifyE_idem l, blockifyE_idem r]
  | .logical _ l r => by
      simp only [blockifyE, blockifyE_idem l, blockifyE_idem r]
  | .unary _ e => by
      simp only [blockifyE, blockifyE_idem e]
  | .cond t c a => by
      simp only [blockifyE, blockifyE_idem t, blockifyE_idem c, blockifyE_idem a]
  | .call f args => by
      simp only [blockifyE, blockifyE_idem f, blockifyExprs_idem args]
  | .newExpr f args => by
      simp only [blockifyE, blockifyE_idem f, blockifyExprs_idem args]
  | .seqExpr es => by
      simp only [blockifyE, blockifyExprs_idem es]
  | .spread e => by
      simp only [blockifyE, blockifyE_idem e]
  | .arrow _ b => by
      simp only [blockifyE, blockifyFnBody_idem b]
  | .arrayLit es => by
      simp only [blockifyE, blockifyExprs_idem es]

theorem blockifyFnBody_idem : ∀ b : FnBody, blockifyFnBody (blockifyFnBody b) = blockifyFnBody b
  | .expr e => by
      simp only [blockifyFnBody, blockifyStmts, blockifyS, blockifyOptE,
        blockifyE_idem e]
  | .block ss => by
      simp only [blockifyFnBody, blockifyStmts_idem ss]

theorem blockifyS_idem : ∀ s : Stmt, blockifyS (blockifyS s) = blockifyS s
  | .exprStmt e => by
      simp only [blockifyS, blockifyE_idem e]
  | .block ss => by
      simp only [blockifyS, blockifyStmts_idem ss]
  | .varDecl _ ds => by
      simp only [blockifyS, blockifyDecls_idem ds]
  | .ifStmt t c a => by
      simp only [blockifyS, blockifyE_idem t,
        blockifyS_maybeBlockify _ (blockifyS_idem c),
        maybeBlockify_maybeBlockify, blockifyOptAlt_idem a]
  | .whileStmt t b => by
      simp only [blockifyS, blockifyE_idem t,
        blockifyS_maybeBlockify _ (blockifyS_idem b),
        maybeBlockify_maybeBlockify]
  | .doWhileStmt b t => by
      simp only [blockifyS, blockifyE_idem t,
        blockifyS_maybeBlockify _ (blockifyS_idem b),
        maybeBlockify_maybeBlockify]
  | .forStmt t u b => by
      simp only [blockifyS, blockifyOptE_idem t, blockifyOptE_idem u,
        blockifyS_maybeBlockify _ (blockifyS_idem b),
        maybeBlockify_maybeBlockify]
  | .forOfStmt _ rhs b => by
      simp only [blockifyS, blockifyE_idem rhs,
        blockifyS_maybeBlockify _ (blockifyS_idem b),
        maybeBlockify_maybeBlockify]
  | .forInStmt _ rhs b => by
      simp only [blockifyS, blockifyE_idem rhs,
        blockifyS_maybeBlockify _ (blockifyS_idem b),
        maybeBlockify_maybeBlockify]
  | .returnStmt arg => by
      simp only [blockifyS, blockifyOptE_idem arg]
  | .labeled _ b => by
      simp only [blockifyS, blockifyS_idem b]
  | .withStmt o b => by
      simp only [blockifyS, blockifyE_idem o,
        blockifyS_maybeBlockify _ (blockifyS_idem b),
        maybeBlockify_maybeBlockify]
  | .switchStmt d cs => by
      simp only [blockifyS, blockifyE_idem d, blockifyCases_idem cs]
  | .tryStmt b h f => by
      simp only [blockifyS, blockifyStmts_idem b, blockifyOptHandler_idem h,
        blockifyOptStmts_idem f]
  | .throwStmt e => by
      simp only [blockifyS, blockifyE_idem e]
  | .funcDecl _ _ b => by
      simp only [blockifyS, blockifyStmts_idem b]
  | .empty => rfl

theorem blockifyOptAlt_idem : ∀ a : Option Stmt, blockifyOptAlt (blockifyOptAlt a) = blockifyOptAlt a
  | none => rfl
  | some s => by
      simp only [blockifyOptAlt,
        blockifyS_maybeBlockifyAlt _ (blockifyS_idem s),
        maybeBlockifyAlt_maybeBlockifyAlt]

theorem blockifyOptE_idem : ∀ a : Option Expr, blockifyOptE (blockifyOptE a) = blockifyOptE a
  | none => rfl
  | some e => by
      simp only [blockifyOptE, blockifyE_idem e]

theorem blockifyOptHandler_idem :
    ∀ h : Option Handler, blockifyOptHandler (blockifyOptHandler h) = blockifyOptHandler h
  | none => rfl
  | some (.mk _ b) => by
      simp only [blockifyOptHandler, blockifyStmts_idem b]

theorem blockifyOptStmts_idem :
    ∀ f : Option (List Stmt), blockifyOptStmts (blockifyOptStmts f) = blockifyOptStmts f
  | none => rfl
  | some ss => by
      simp only [blockifyOptStmts, blockifyStmts_idem ss]

theorem blockifyStmts_idem : ∀ ss : List Stmt, blockifyStmts (blockifyStmts ss) = blockifyStmts ss
  | [] => rfl
  | s :: ss => by
      simp only [blockifyStmts, blockifyS_idem s, blockifyStmts_idem ss]

theorem blockifyExprs_idem : ∀ es : List Expr, blockifyExprs (blockifyExprs es) = blockifyExprs es
  | [] => rfl
  | e :: es => by
      simp only [blockifyExprs, blockifyE_idem e, blockifyExprs_idem es]

theorem blockifyCases_idem :
    ∀ cs : List SwitchCase, blockifyCases (blockifyCases cs) = blockifyCases cs
  | [] => rfl
  | .mk t c :: cs => by
      simp only [blockifyCases, blockifyOptE_idem t, blockifyStmts_idem c,
        blockifyCases_idem cs]

theorem blockifyDecls_idem :
    ∀ ds : List (Name × Option Expr), blockifyDecls (blockifyDecls ds) = blockifyDecls ds
  | [] => rfl
  | (_, i) :: ds => by
      simp only [blockifyDecls, blockifyOptE_idem i, blockifyDecls_idem ds]

end

/-- C10: For every AST, running the block-normalizer (blockify) twice produces
the same AST as running it once: wrapping non-block if/else arms, loop bodies
and with bodies in blocks, and converting expression-bodied arrow functions
into block bodies with a single return, is idempotent. -/
theorem blockify_idempotent (program : List Stmt) :
    blockify (blockify program) = blockify program :=
  blockifyStmts_idem program

/-- Reading back the variable just written. -/
theorem envGet_envSet_self (env : Env) (n : Name) (v : Val) :
    envGet (envSet env n v) n = some v := by
  induction env with
  | nil => simp [envSet, envGet, List.find?]
  | cons p rest ih =>
      obtain ⟨k, w⟩ := p
      by_cases hk : k == n
      · simp [envSet, hk, envGet, List.find?]
      · simp only [envSet, hk, if_false, envGet, List.find?] at ih ⊢
        exact ih

/-- Writing one variable leaves the others untouched. -/
theorem envGet_envSet_ne (env : Env) (n k : Name) (v : Val) (h : n ≠ k) :
    envGet (envSet env k v) n = envGet env n := by
  induction env with
  | nil =>
      have hf : (k == n) = false := by
        simp only [beq_eq_false_iff_ne]
        exact fun hc => h hc.symm
      simp [envSet, envGet, List.find?, hf]
  | cons p rest ih =>
      obtain ⟨k', w⟩ := p
      by_cases hk : k' == k
      · have hkk : k' = k := by simpa using hk
        subst hkk
        have hf : (k' == n) = false := by
          simp only [beq_eq_false_iff_ne]
          exact fun hc => h hc.symm
        simp [envSet, envGet, List.find?, hf]
      · simp only [envSet, hk, if_false, envGet, List.find?] at ih ⊢
        by_cases hkn : k' == n
        · simp [hkn]
        · simp only [hkn] at ih ⊢
          exact ih

/-- Executing the finally's body resets the seeking variable and completes
    normally. -/
theorem execSs_seekReset (fuel : Nat) (o : CallOracle) (seekName : Name)
    (env : Env) (r : Env × Option Val)
    (h : execSs fuel o [seekResetStmt seekName] env = some r) :
    r = (envSet env seekName (.num 0), none) := by
  match fuel with
  | 0 => exact absurd h (by simp [execSs])
  | 1 => exact absurd h (by simp [execSs, execS])
  | fuel + 2 =>
      simp only [execSs, execS, seekResetStmt, evalE] at h
      exact (Option.some.injEq _ _ ▸ h).symm

/-- Whatever `try { A } finally { seeking = 0 }` does — complete normally,
    or propagate an exception thrown inside `A` — the final environment has
    the seeking variable reset to 0. -/
theorem execS_tryFinally_resets_seek (fuel : Nat) (o : CallOracle) (seekName : Name)
    (A : List Stmt) (env env' : Env) (exc : Option Val)
    (h : execS fuel o (.tryStmt A none (some [seekResetStmt seekName])) env
      = some (env', exc)) :
    envGet env' seekName = some (.num 0) := by
  match fuel with
  | 0 => exact absurd h (by simp [execS])
  | fuel + 1 =>
      simp only [execS] at h
      cases hA : execSs fuel o A env with
      | none => rw [hA] at h; exact absurd h (by simp)
      | some r =>
          obtain ⟨env₁, exc₁⟩ := r
          rw [hA] at h
          dsimp only at h
          cases exc₁ with
          | none =>
              cases hF : execSs fuel o [seekResetStmt seekName] env₁ with
              | none => rw [hF] at h; exact absurd h (by simp)
              | some rf =>
                  have hrf := execSs_seekReset fuel o seekName env₁ rf hF
                  subst hrf
                  rw [hF] at h
                  simp only [Option.some.injEq, Prod.mk.injEq] at h
                  rw [← h.1, envGet_envSet_self]
          | some v =>
              cases hF : execSs fuel o [seekResetStmt seekName] env₁ with
              | none => rw [hF] at h; exact absurd h (by simp)
              | some rf =>
                  have hrf := execSs_seekReset fuel o seekName env₁ rf hF
                  subst hrf
                  rw [hF] at h
                  simp only [Option.some.injEq, Prod.mk.injEq] at h
                  rw [← h.1, envGet_envSet_self]

set_option maxHeartbeats 1000000

/-- Symbolic run of the synthesised call block when the guard is true: the
    declarators execute, the activation bit is set (`mask |= 1n << N`)
    *before* the callee runs — the oracle receives the environment with the
    or-ed mask — and whether the callee returns or throws, the result has
    the seeking variable reset to 0 by the finally. -/
theorem execS_mkCallBlock_run (p : Nat) (o : CallOracle) (an : AssignedNames)
    (check : Expr) (decls : List (Name × Option Expr)) (f af : Name) (bit : Nat)
    (env envT env₁ : Env) (vT : Val) (maskV : Int)
    (hne : decls.isEmpty = false)
    (hT : evalE o check env = some (.val envT vT))
    (htr : truthy vT = true)
    (hD : execDecls (p + 2) o decls envT = some (env₁, none))
    (hM : envGet env₁ af = some (.big maskV)) :
    execS (p + 8) o (mkCallBlock an check decls (.call (.ident f) []) af bit) env =
      (match o f [] (envSet env₁ af (.big (Int.lor maskV ((1 : Int) <<< (bit : Int))))) with
       | .val envC _ => some (envSet envC an.seekingVarName (.num 0), none)
       | .thrown envC v => some (envSet envC an.seekingVarName (.num 0), some v)) := by
  rw [show p + 8 = (p + 7) + 1 from rfl]
  simp only [mkCallBlock, hne, Bool.false_eq_true, if_false, setActiveFnBitExpression]
  simp only [execS, hT, htr, if_true]
  rw [show p + 6 = (p + 5) + 1 from rfl]
  simp only [execSs, List.singleton_append]
  rw [show p + 5 = (p + 4) + 1 from rfl]
  simp only [execS]
  rw [show p + 4 = (p + 3) + 1 from rfl]
  simp only [execSs]
  rw [show p + 3 = (p + 2) + 1 from rfl]
  simp only [execS, hD]
  simp [evalE, hM, applyBinary, evalArgs, show "|=".dropRight 1 = "|" from rfl]
  cases ho : o f [] (envSet env₁ af (.big (Int.lor maskV ((1 : Int) <<< (bit : Int))))) with
  | val envC v => simp [ho]
  | thrown envC v => simp [ho]

set_option maxHeartbeats 200000

theorem requireActiveFns_activeFns (an : AssignedNames) :
    (an.requireActiveFns).2.activeFns = some (an.requireActiveFns).1 := by
  cases h : an.activeFns <;> simp [AssignedNames.requireActiveFns, h]

theorem requireActiveFns_seeking (an : AssignedNames) :
    (an.requireActiveFns).2.seekingVarName = an.seekingVarName := by
  cases h : an.activeFns <;> simp [AssignedNames.requireActiveFns, h]

/-- When no prologue is present yet, `ensureActiveFnBodyPrefixPresent`
    prepends the read-then-clear pair and reports the flag and bit index. -/
theorem ensureActiveFnBodyPrefix_installs (body : List Stmt) (an : AssignedNames)
    (h : parseActivePrologue an body = none) :
    ∃ activeFn flag bit an',
      an'.activeFns = some activeFn ∧ an'.seekingVarName = an.seekingVarName ∧
      ensureActiveFnBodyPrefixPresent body an =
        (activeReadStmt flag activeFn bit :: activeClearStmt activeFn bit :: body,
         (flag, bit), an') := by
  refine ⟨(an.requireActiveFns).1,
    ((an.requireActiveFns).2.nameMaker.unusedNameAndSuffixNum "isActiveCall").1.1,
    ((an.requireActiveFns).2.nameMaker.unusedNameAndSuffixNum "isActiveCall").1.2,
    { (an.requireActiveFns).2 with
        nameMaker := ((an.requireActiveFns).2.nameMaker.unusedNameAndSuffixNum "isActiveCall").2 },
    ?_, ?_, ?_⟩
  · exact requireActiveFns_activeFns an
  · exact requireActiveFns_seeking an
  · simp only [ensureActiveFnBodyPrefixPresent, h]
    rfl

/-- After the prologue has been ensured, a seeking check built in that
    function's context is the comparison conjoined with the local flag. -/
theorem seekingCheck_after_ensure (body : List Stmt) (an : AssignedNames) (v : Int) :
    seekingCheck (ensureActiveFnBodyPrefixPresent body an).2.2 v
        (some (ensureActiveFnBodyPrefixPresent body an).1) false =
      .logical "&&" (.ident (ensureActiveFnBodyPrefixPresent body an).2.1.1)
        (.binary "===" (.ident an.seekingVarName) (.num v)) := by
  cases hp : parseActivePrologue an body with
  | some p =>
      simp [ensureActiveFnBodyPrefixPresent, hp, seekingCheck, Option.bind]
  | none =>
      simp only [ensureActiveFnBodyPrefixPresent, hp]
      simp only [seekingCheck, Option.bind, parseActivePrologue,
        requireActiveFns_activeFns, requireActiveFns_seeking]
      simp

/-- Running the prologue on a store holding mask value `m` binds the flag
    to `(m >> N) & 1n` and stores `m & ~(1n << N)` back in the mask. -/
theorem execSs_activePrologue (p : Nat) (o : CallOracle) (flag af : Name)
    (bit : Nat) (m : Int) (env : Env)
    (hne : flag ≠ af)
    (hM : envGet env af = some (.big m)) :
    execSs (p + 3) o [activeReadStmt flag af bit, activeClearStmt af bit] env =
      some (envSet (envSet env flag (.big (Int.land (m >>> (bit : Int)) 1))) af
        (.big (Int.land m (Int.lnot ((1 : Int) <<< (bit : Int))))), none) := by
  have hr : envGet (envSet env flag (.big (Int.land (m >>> (bit : Int)) 1))) af
      = some (.big m) := by
    rw [envGet_envSet_ne _ _ _ _ (fun hc => hne hc.symm)]
    exact hM
  rw [show p + 3 = (p + 2) + 1 from rfl]
  simp only [execSs, activeReadStmt, activeClearStmt]
  rw [show p + 2 = (p + 1) + 1 from rfl]
  simp only [execS, execDecls, evalE, hM, applyBinary]
  simp [execSs, execS, execDecls, evalE, hr, applyBinary, applyUnary,
    show "&=".dropRight 1 = "&" from rfl]

/-- Whenever the guard of a synthesised call block evaluates truthy and the
    block's execution completes (normally or exceptionally), the final store
    has the seeking variable reset to 0. -/
theorem execS_mkCallBlock_resets_seek (fuel : Nat) (o : CallOracle)
    (an : AssignedNames) (check : Expr) (decls : List (Name × Option Expr))
    (inv : Expr) (af : Name) (bit : Nat) (env envT env' : Env) (vT : Val)
    (exc : Option Val)
    (hT : evalE o check env = some (.val envT vT))
    (htr : truthy vT = true)
    (h : execS fuel o (mkCallBlock an check decls inv af bit) env = some (env', exc)) :
    envGet env' an.seekingVarName = some (.num 0) := by
  match fuel with
  | 0 => exact absurd h (by simp [execS])
  | fuel + 1 =>
      simp only [mkCallBlock, execS, hT, htr, if_true] at h
      match fuel, h with
      | fuel + 1, h =>
          simp only [execS] at h
          match fuel, h with
          | fuel + 1, h =>
              simp only [execSs] at h
              cases hTry : execS fuel o
                  (.tryStmt
                    ((if decls.isEmpty then [] else [Stmt.varDecl "const" decls])
                      ++ [ .exprStmt (setActiveFnBitExpression af bit),
                           .exprStmt inv ])
                    none
                    (some [ .exprStmt (.assign "=" (.ident an.seekingVarName) (.num 0)) ]))
                  envT with
              | none => rw [hTry] at h; exact absurd h (by simp)
              | some r =>
                  obtain ⟨env₁, exc₁⟩ := r
                  rw [hTry] at h
                  have hseek := execS_tryFinally_resets_seek fuel o
                    an.seekingVarName _ envT env₁ exc₁ hTry
                  cases exc₁ with
                  | none =>
                      simp only [execSs, Option.some.injEq, Prod.mk.injEq] at h
                      rw [← h.1]
                      exact hseek
                  | some v =>
                      simp only [Option.some.injEq, Prod.mk.injEq] at h
                      rw [← h.1]
                      exact hseek

/-- C2: for a goal block inside a function subject to call synthesis, (a)
the transformer installs a prologue at the top of that function that reads
bit N of the activation mask into a local flag and then clears bit N in the
mask; (b) the prologue's runtime effect is exactly that read-then-clear;
(c) every seek-equals-id check emitted in that function's context is
conjoined with the local flag; (d) the synthesised call block restores
`seeking = 0` through its finally even when the called body throws; and
(e) the call block sets bit N of the mask inside the try before the
invocation — the callee observes the or-ed mask. -/
theorem goalFunction_activation_protocol :
    (∀ (body : List Stmt) (an : AssignedNames),
      parseActivePrologue an body = none →
      ∃ activeFn flag bit an',
        an'.activeFns = some activeFn ∧ an'.seekingVarName = an.seekingVarName ∧
        ensureActiveFnBodyPrefixPresent body an =
          (activeReadStmt flag activeFn bit :: activeClearStmt activeFn bit :: body,
           (flag, bit), an'))
  ∧ (∀ (p : Nat) (o : CallOracle) (flag af : Name) (bit : Nat) (m : Int) (env : Env),
      flag ≠ af → envGet env af = some (.big m) →
      execSs (p + 3) o [activeReadStmt flag af bit, activeClearStmt af bit] env =
        some (envSet (envSet env flag (.big (Int.land (m >>> (bit : Int)) 1))) af
          (.big (Int.land m (Int.lnot ((1 : Int) <<< (bit : Int))))), none))
  ∧ (∀ (body : List Stmt) (an : AssignedNames) (v : Int),
      seekingCheck (ensureActiveFnBodyPrefixPresent body an).2.2 v
          (some (ensureActiveFnBodyPrefixPresent body an).1) false =
        .logical "&&" (.ident (ensureActiveFnBodyPrefixPresent body an).2.1.1)
          (.binary "===" (.ident an.seekingVarName) (.num v)))
  ∧ (∀ (fuel : Nat) (o : CallOracle) (an : AssignedNames) (check : Expr)
       (decls : List (Name × Option Expr)) (inv : Expr) (af : Name) (bit : Nat)
       (env envT env' : Env) (vT : Val) (exc : Option Val),
      evalE o check env = some (.val envT vT) → truthy vT = true →
      execS fuel o (mkCallBlock an check decls inv af bit) env = some (env', exc) →
      envGet env' an.seekingVarName = some (.num 0))
  ∧ (∀ (p : Nat) (o : CallOracle) (an : AssignedNames) (check : Expr)
       (decls : List (Name × Option Expr)) (f af : Name) (bit : Nat)
       (env envT env₁ : Env) (vT : Val) (maskV : Int),
      decls.isEmpty = false →
      evalE o check env = some (.val envT vT) → truthy vT = true →
      execDecls (p + 2) o decls envT = some (env₁, none) →
      envGet env₁ af = some (.big maskV) →
      execS (p + 8) o (mkCallBlock an check decls (.call (.ident f) []) af bit) env =
        (match o f [] (envSet env₁ af (.big (Int.lor maskV ((1 : Int) <<< (bit : Int))))) with
         | .val envC _ => some (envSet envC an.seekingVarName (.num 0), none)
         | .thrown envC v => some (envSet envC an.seekingVarName (.num 0), some v))) :=
  ⟨ensureActiveFnBodyPrefix_installs,
   execSs_activePrologue,
   seekingCheck_after_ensure,
   fun fuel o an check decls inv af bit env envT env' vT exc hT htr h =>
     execS_mkCallBlock_resets_seek fuel o an check decls inv af bit env envT env' vT exc hT htr h,
   fun p o an check decls f af bit env envT env₁ vT maskV hne hT htr hD hM =>
     execS_mkCallBlock_run p o an check decls f af bit env envT env₁ vT maskV hne hT htr hD hM⟩

/-- Witness for C2: the protocol exercised at concrete inputs — a fresh
name pool installing `isActiveCall_0`/bit 0, the prologue run on mask 1, the
conjoined check, and a call block run under a throwing oracle, after which
the seeking variable is 0. -/
theorem goalFunction_activation_protocol_witness :
    (∃ activeFn flag bit an',
        an'.activeFns = some activeFn ∧
        an'.seekingVarName = (AssignedNames.init ⟨[], []⟩).seekingVarName ∧
        ensureActiveFnBodyPrefixPresent [] (AssignedNames.init ⟨[], []⟩) =
          (activeReadStmt flag activeFn bit :: activeClearStmt activeFn bit :: [],
           (flag, bit), an'))
  ∧ execSs (0 + 3) oW
      [activeReadStmt "isActiveCall_0" "activeFns_0" 0, activeClearStmt "activeFns_0" 0]
      [("activeFns_0", .big 1)] =
      some (envSet (envSet [("activeFns_0", .big 1)] "isActiveCall_0"
          (.big (Int.land ((1 : Int) >>> ((0 : Nat) : Int)) 1))) "activeFns_0"
        (.big (Int.land 1 (Int.lnot ((1 : Int) <<< ((0 : Nat) : Int))))), none)
  ∧ seekingCheck (ensureActiveFnBodyPrefixPresent [] (AssignedNames.init ⟨[], []⟩)).2.2 5
        (some (ensureActiveFnBodyPrefixPresent [] (AssignedNames.init ⟨[], []⟩)).1) false =
      .logical "&&" (.ident (ensureActiveFnBodyPrefixPresent [] (AssignedNames.init ⟨[], []⟩)).2.1.1)
        (.binary "===" (.ident (AssignedNames.init ⟨[], []⟩).seekingVarName) (.num 5))
  ∧ envGet [("seeking_0", Val.num 0), ("activeFns_0", Val.big 1), ("f", Val.obj),
      ("callee_0", Val.obj)] anW.seekingVarName = some (.num 0)
  ∧ execS (0 + 8) oW
      (mkCallBlock anW checkW declsW (.call (.ident "callee_0") []) "activeFns_0" 0) envW =
      (match oW "callee_0" []
          (envSet [("seeking_0", Val.num 1), ("activeFns_0", Val.big 0), ("f", Val.obj),
            ("callee_0", Val.obj)] "activeFns_0"
            (.big (Int.lor 0 ((1 : Int) <<< ((0 : Nat) : Int))))) with
       | .val envC _ => some (envSet envC anW.seekingVarName (.num 0), none)
       | .thrown envC v => some (envSet envC anW.seekingVarName (.num 0), some v)) :=
  ⟨goalFunction_activation_protocol.1 [] (AssignedNames.init ⟨[], []⟩) rfl,
   goalFunction_activation_protocol.2.1 0 oW "isActiveCall_0" "activeFns_0" 0 1
     [("activeFns_0", .big 1)] (by decide) rfl,
   goalFunction_activation_protocol.2.2.1 [] (AssignedNames.init ⟨[], []⟩) 5,
   goalFunction_activation_protocol.2.2.2.1 8 oW anW checkW declsW
     (.call (.ident "callee_0") []) "activeFns_0" 0 envW envW
     [("seeking_0", Val.num 0), ("activeFns_0", Val.big 1), ("f", Val.obj),
       ("callee_0", Val.obj)] (.bool true) (some (.num 7)) rfl rfl rfl,
   goalFunction_activation_protocol.2.2.2.2 0 oW anW checkW declsW "callee_0"
     "activeFns_0" 0 envW envW
     [("seeking_0", Val.num 1), ("activeFns_0", Val.big 0), ("f", Val.obj),
       ("callee_0", Val.obj)] (.bool true) 0 rfl rfl rfl rfl rfl⟩

/-- C1: the claim says the region `return E; COMEHERE blocks` is rewritten to
`let R; try { return (R = E); } finally { <the COMEHERE blocks> }` — and so
does the source function's own doc comment — but evaluating the embedded
source on the scenario input shows the code actually emits
`let R = E; <the COMEHERE blocks>; return R;` with no `try`/`finally` at all
(the `Function.return` references are rewritten to `R`, and a fresh `R` is
allocated, as claimed). -/
theorem pullComeHereBlocksAfterReturn_emits_no_tryFinally :
    (pullComeHereBlocksAfterReturnIntoFinally returnTrailingInput returnTrailingNm).1 =
      [ .varDecl "let" [("functionReturn_0",
          some (.binary "*" (.binary "+" (.ident "a") (.ident "b")) (.ident "c")))],
        .labeled "COMEHERE" (.withStmt (.ident "_") (.block
          [ .exprStmt (.call (.ident "log") [.ident "functionReturn_0"]) ])),
        .returnStmt (some (.ident "functionReturn_0")) ]
    ∧ ((pullComeHereBlocksAfterReturnIntoFinally returnTrailingInput returnTrailingNm).1.all
        (fun s => !isTryStmt s)) = true :=
  ⟨rfl, rfl⟩

/-- C4: the claim says every with-object item (after the optional leading
string literal) that is not an `=` assignment to a dotted identifier chain
is reported to the diagnostics sink and skipped — in particular `a += 1` is
reported and never recorded.  Evaluating the embedded source shows the
opposite: the malformed-initializer guard never fires for an assignment
node (its `||` makes it unsatisfiable), so the compound assignment
`a += 1` is silently *recorded* as the initializer `("a", 1)` with no
diagnostic. -/
theorem compoundAssignment_recorded_not_reported :
    parseWithObject (.seqExpr [.str "d", .assign "+=" (.ident "a") (.num 1)]) =
      (some "d", [("a", .num 1)], [])
    ∧ processInitItem (.assign "+=" (.ident "a") (.num 1)) =
      .record "a" (.num 1) :=
  ⟨rfl, rfl⟩

/-- Positional form of the case rewrite. -/
theorem rewriteSwitchCases_eq (tok : Name) (cases : List SwitchCase) (i : Nat)
    (h : i < cases.length) :
    rewriteSwitchCases tok cases i =
      cases.take i
        ++ [SwitchCase.mk (cases.get ⟨i, h⟩).test [],
            SwitchCase.mk (some (.ident tok)) (cases.get ⟨i, h⟩).consequent]
        ++ cases.drop (i + 1) := by
  induction cases generalizing i with
  | nil => exact absurd h (by simp)
  | cons c cs ih =>
      cases i with
      | zero => simp [rewriteSwitchCases]
      | succ k =>
          have hk : k < cs.length := by simpa using h
          simp [rewriteSwitchCases, ih k hk]

/-- C6: when the goal's nearest enclosing construct is a switch case, the
driver declares fresh sentinel-object and discriminant-snapshot constants
immediately before the switch, replaces the discriminant with
`G ? sentinel : snapshot`, and inserts a `case sentinel:` immediately after
the goal's case absorbing all of the goal case's consequent statements,
leaving every other case unchanged. -/
theorem driveSwitchCase_spec (disc : Expr) (cases : List SwitchCase)
    (goalIdx : Nat) (check : Expr) (nm : NameMaker)
    (h : goalIdx < cases.length) :
    ∃ tok snap nm',
      driveSwitchCase disc cases goalIdx check nm =
        (.varDecl "const" [(tok, some .objectLit), (snap, some disc)],
         .switchStmt (.cond check (.ident tok) (.ident snap))
           (cases.take goalIdx
             ++ [SwitchCase.mk (cases.get ⟨goalIdx, h⟩).test [],
                 SwitchCase.mk (some (.ident tok)) (cases.get ⟨goalIdx, h⟩).consequent]
             ++ cases.drop (goalIdx + 1)),
         nm') := by
  refine ⟨(nm.unusedName "caseToken").1,
    ((nm.unusedName "caseToken").2.unusedName "caseExpr").1,
    ((nm.unusedName "caseToken").2.unusedName "caseExpr").2, ?_⟩
  simp only [driveSwitchCase]
  rw [rewriteSwitchCases_eq _ _ _ h]

/-- Witness for C6: the switch rewrite applied to a concrete three-case
switch with the goal in the middle case. -/
theorem driveSwitchCase_spec_witness :
    ∃ tok snap nm',
      driveSwitchCase (.ident "x") swCases 1
          (.binary "===" (.ident "seeking_0") (.num 1)) ⟨["x", "f", "g", "h"], []⟩ =
        (.varDecl "const" [(tok, some .objectLit), (snap, some (.ident "x"))],
         .switchStmt
           (.cond (.binary "===" (.ident "seeking_0") (.num 1)) (.ident tok) (.ident snap))
           (swCases.take 1
             ++ [SwitchCase.mk (swCases.get ⟨1, by decide⟩).test [],
                 SwitchCase.mk (some (.ident tok)) (swCases.get ⟨1, by decide⟩).consequent]
             ++ swCases.drop (1 + 1)),
         nm') :=
  driveSwitchCase_spec (.ident "x") swCases 1
    (.binary "===" (.ident "seeking_0") (.num 1)) ⟨["x", "f", "g", "h"], []⟩ (by decide)

/-- C7 counterexample: for a catch parameter `e` with both initializers
`catch.e = 1` and `e = 2` supplied, the source consumes and throws the
`catch.e` one (the code comment lists the fall-through order `catch.e`,
then `e`), while the claim's stated order ("an initializer consumed for the
caught parameter name, a `catch.<name>`-qualified initializer, or a fresh
error") would pick `e = 2`; the two orders disagree at this input. -/
theorem driveCatchGoal_order_counterexample :
    (driveCatchGoal [] (some "e") (.binary "===" (.ident "seeking_0") (.num 1))
        [("catch.e", .num 1), ("e", .num 2)]).1 =
      [.ifStmt (.binary "===" (.ident "seeking_0") (.num 1))
        (.block [.throwStmt (.num 1)]) none]
    ∧ claimCatchThrowable (some "e") [("catch.e", .num 1), ("e", .num 2)] = .num 2
    ∧ (Expr.num 1 : Expr) ≠ (.num 2 : Expr) :=
  ⟨rfl, rfl, fun hc => absurd (Expr.num.inj hc) (by decide)⟩

/-- C7 (amended): the driver prepends `if (G) { throw E }` as the first
statement of the try block; `E` is resolved — consuming the matched
initializer — in the order `catch.<name>`-qualified initializer first, then
the bare caught-parameter initializer, then a freshly constructed
`new globalThis.Error()` (also used when the catch clause has no simple
parameter name). -/
theorem driveCatchGoal_spec (tryBlock : List Stmt) (n : Name) (check : Expr)
    (inits : List (String × Expr)) :
    (∀ e rest, lookupAndConsumeParam ["catch"] n inits = some (e, rest) →
      driveCatchGoal tryBlock (some n) check inits =
        (.ifStmt check (.block [.throwStmt e]) none :: tryBlock, rest))
  ∧ (∀ e rest, lookupAndConsumeParam ["catch"] n inits = none →
      lookupAndConsumeParam [] n inits = some (e, rest) →
      driveCatchGoal tryBlock (some n) check inits =
        (.ifStmt check (.block [.throwStmt e]) none :: tryBlock, rest))
  ∧ (lookupAndConsumeParam ["catch"] n inits = none →
      lookupAndConsumeParam [] n inits = none →
      driveCatchGoal tryBlock (some n) check inits =
        (.ifStmt check
            (.block [.throwStmt
              (.newExpr (.member (.ident "globalThis") (.ident "Error") false) [])])
            none :: tryBlock,
          inits))
  ∧ driveCatchGoal tryBlock none check inits =
      (.ifStmt check
          (.block [.throwStmt
            (.newExpr (.member (.ident "globalThis") (.ident "Error") false) [])])
          none :: tryBlock,
        inits) := by
  refine ⟨?_, ?_, ?_, ?_⟩
  · intro e rest hc
    simp [driveCatchGoal, hc]
  · intro e rest hc hb
    simp [driveCatchGoal, hc, hb]
  · intro hc hb
    simp [driveCatchGoal, hc, hb]
  · simp [driveCatchGoal]

/-- Witness for C7's amended claim: the three resolution outcomes at
concrete initializer lists, plus the no-parameter case. -/
theorem driveCatchGoal_spec_witness :
    driveCatchGoal [.empty] (some "e") (.ident "G")
        [("catch.e", .num 1), ("e", .num 2)] =
      (.ifStmt (.ident "G") (.block [.throwStmt (.num 1)]) none :: [.empty],
        [("e", .num 2)])
    ∧ driveCatchGoal [.empty] (some "e") (.ident "G") [("e", .num 2)] =
      (.ifStmt (.ident "G") (.block [.throwStmt (.num 2)]) none :: [.empty], [])
    ∧ driveCatchGoal [.empty] (some "e") (.ident "G") [] =
      (.ifStmt (.ident "G")
          (.block [.throwStmt
            (.newExpr (.member (.ident "globalThis") (.ident "Error") false) [])])
          none :: [.empty], [])
    ∧ driveCatchGoal [.empty] none (.ident "G") [("e", .num 2)] =
      (.ifStmt (.ident "G")
          (.block [.throwStmt
            (.newExpr (.member (.ident "globalThis") (.ident "Error") false) [])])
          none :: [.empty], [("e", .num 2)]) :=
  ⟨(driveCatchGoal_spec [.empty] "e" (.ident "G")
      [("catch.e", .num 1), ("e", .num 2)]).1 (.num 1) [("e", .num 2)] rfl,
   (driveCatchGoal_spec [.empty] "e" (.ident "G") [("e", .num 2)]).2.1
      (.num 2) [] rfl rfl,
   (driveCatchGoal_spec [.empty] "e" (.ident "G") []).2.2.1 rfl rfl,
   (driveCatchGoal_spec [.empty] "e" (.ident "G") [("e", .num 2)]).2.2.2⟩

theorem extractFnItems_goals (fnIdx : Nat) :
    ∀ (items : List FnItem) (st : XState) (pro : Option (Name × Name × Nat)),
      ((extractFnItems st fnIdx pro items).2.2.goals.map ComeHereBlock.description =
        st.goals.map ComeHereBlock.description ++ (comeObjsFn items).map codeDescription)
      ∧ ((extractFnItems st fnIdx pro items).2.2.goals.map ComeHereBlock.seekingValue =
        st.goals.map ComeHereBlock.seekingValue
          ++ List.range' (st.count + 1) (comeObjsFn items).length)
      ∧ (extractFnItems st fnIdx pro items).2.2.count =
        st.count + (comeObjsFn items).length := by
  intro items
  induction items with
  | nil => intro st pro; simp [extractFnItems, comeObjsFn]
  | cons item rest ih =>
      intro st pro
      cases item with
      | plain s =>
          simpa [extractFnItems, comeObjsFn] using ih st pro
      | come obj body =>
          have h := ih (extractCome st (some fnIdx) pro obj body).2.2
            (extractCome st (some fnIdx) pro obj body).2.1
          simp only [extractFnItems, comeObjsFn, List.map_cons, List.length_cons]
          refine ⟨?_, ?_, ?_⟩
          · rw [h.1]
            simp [extractCome, codeDescription]
          · rw [h.2.1]
            simp [extractCome, List.range'_succ]
          · rw [h.2.2]
            simp [extractCome]
            omega

theorem extractTop_goals :
    ∀ (items : List TopItem) (st : XState) (idx : Nat),
      ((extractTop st idx items).2.goals.map ComeHereBlock.description =
        st.goals.map ComeHereBlock.description ++ (comeObjs items).map codeDescription)
      ∧ ((extractTop st idx items).2.goals.map ComeHereBlock.seekingValue =
        st.goals.map ComeHereBlock.seekingValue
          ++ List.range' (st.count + 1) (comeObjs items).length)
      ∧ (extractTop st idx items).2.count = st.count + (comeObjs items).length := by
  intro items
  induction items with
  | nil => intro st idx; simp [extractTop, comeObjs]
  | cons item rest ih =>
      intro st idx
      cases item with
      | plain s =>
          simpa [extractTop, comeObjs] using ih st (idx + 1)
      | fn name params body =>
          have hf := extractFnItems_goals idx body st none
          have h := ih (extractFn st idx body).2 (idx + 1)
          simp only [extractTop, comeObjs]
          have hg : (extractFn st idx body).2.goals
              = (extractFnItems st idx none body).2.2.goals := by
            simp only [extractFn]
            cases (extractFnItems st idx none body).2.1 with
            | none => rfl
            | some p => rfl
          have hc : (extractFn st idx body).2.count
              = (extractFnItems st idx none body).2.2.count := by
            simp only [extractFn]
            cases (extractFnItems st idx none body).2.1 with
            | none => rfl
            | some p => rfl
          refine ⟨?_, ?_, ?_⟩
          · rw [h.1, hg, hf.1]
            simp
          · rw [h.2.1, hg, hf.2.1, hc, hf.2.2]
            rw [List.append_assoc]
            rw [show st.count + (comeObjsFn body).length + 1
              = st.count + 1 + 1 * (comeObjsFn body).length from by omega]
            rw [List.range'_append]
            simp [Nat.add_comm]
          · rw [h.2.2, hc, hf.2.2]
            simp
            omega
      | come obj body =>
          have h := ih (extractCome st none none obj body).2.2 (idx + 1)
          simp only [extractTop, comeObjs, List.map_cons, List.length_cons]
          refine ⟨?_, ?_, ?_⟩
          · rw [h.1]
            simp [extractCome, codeDescription]
          · rw [h.2.1]
            simp [extractCome, List.range'_succ]
          · rw [h.2.2]
            simp [extractCome]
            omega

/-- C3 counterexample: on the module `COMEHERE: with ("") {}` the code's
blocks manifest holds `null` (JS `it[0].value || null` collapses the empty
description string), while the claim — blocks[i] is the description string
whenever the with-list has a leading string literal — expects `""`. -/
theorem transform_blocks_empty_description_counterexample :
    (transformMini ⟨[], []⟩ [.come (.str "") []]).map TransformResult.blocks =
      some [none]
    ∧ claimDescription (.str "") = some ""
    ∧ (transformMini ⟨[], []⟩ [.come (.str "") []]).map TransformResult.blocks
        ≠ some [claimDescription (.str "")] :=
  ⟨rfl, rfl, by decide⟩

/-- C3 (amended): for every module of the fragment on which the pipeline
succeeds, goal ids are assigned 1..N contiguously in source order (0 is
reserved for "no goal selected"), `blocks` has one entry per extracted
COMEHERE block, and `blocks[i]` is the description of the goal whose id is
`i+1`, where the description is the value of the with-list's leading string
literal when that value is non-empty, and null otherwise (no leading
string literal, or an empty one). -/
theorem transform_goalIds_and_blocks (nm : NameMaker) (input : List TopItem)
    (res : TransformResult) (h : transformMini nm input = some res) :
    res.blocks = (comeObjs input).map codeDescription
    ∧ (extractTop ⟨AssignedNames.init nm, 0, [], []⟩ 0 input).2.goals.map
        ComeHereBlock.seekingValue = List.range' 1 (comeObjs input).length
    ∧ res.blocks.length = (comeObjs input).length := by
  have he := extractTop_goals input ⟨AssignedNames.init nm, 0, [], []⟩ 0
  simp only [transformMini] at h
  cases hd : driveGoals
      (extractTop ⟨AssignedNames.init nm, 0, [], []⟩ 0 input).2.an
      (extractTop ⟨AssignedNames.init nm, 0, [], []⟩ 0 input).1
      (extractTop ⟨AssignedNames.init nm, 0, [], []⟩ 0 input).2.goals with
  | none => rw [hd] at h; exact absurd h (by simp)
  | some dr =>
      rw [hd] at h
      simp only [Option.some.injEq] at h
      have hb : res.blocks =
          (extractTop ⟨AssignedNames.init nm, 0, [], []⟩ 0 input).2.goals.map
            ComeHereBlock.description := by
        rw [← h]
      have h1 := he.1
      have h2 := he.2.1
      simp only [List.map_nil, List.nil_append] at h1 h2
      refine ⟨?_, ?_, ?_⟩
      · rw [hb, h1]
      · exact h2
      · rw [hb, h1]
        simp

/-- Witness for C3's amended claim at the trivial one-block module. -/
theorem transform_goalIds_and_blocks_witness :
    trivialComeResult.blocks = (comeObjs trivialComeModule).map codeDescription
    ∧ (extractTop ⟨AssignedNames.init ⟨["bar"], []⟩, 0, [], []⟩ 0
        trivialComeModule).2.goals.map ComeHereBlock.seekingValue =
      List.range' 1 (comeObjs trivialComeModule).length
    ∧ trivialComeResult.blocks.length = (comeObjs trivialComeModule).length :=
  transform_goalIds_and_blocks ⟨["bar"], []⟩ trivialComeModule trivialComeResult rfl

/-- C9: the claim says the return-trailing rewrite leaves every statement of
the enclosing block after the COMEHERE blocks present and unchanged, but the
source passes the absolute index `afterLast` to `Array.prototype.splice` as
its *deleteCount* argument, so whenever the `return` is not the first
statement of the block the next `returnIndex` statements after the COMEHERE
blocks are deleted: on `{ before(); return x; COMEHERE: with (_) {} g(); }`
the trailing `g();` vanishes from the output. -/
theorem pullComeHereBlocksAfterReturn_drops_trailing_statements :
    (pullComeHereBlocksAfterReturnIntoFinally returnTrailingFrameInput returnTrailingFrameNm).1 =
      [ .exprStmt (.call (.ident "before") []),
        .varDecl "let" [("functionReturn_0", some (.ident "x"))],
        .labeled "COMEHERE" (.withStmt (.ident "_") (.block [])),
        .returnStmt (some (.ident "functionReturn_0")) ] :=
  rfl

theorem ensureForCome_seeking (an : AssignedNames) (fnIdx : Option Nat)
    (pro : Option (Name × Name × Nat)) :
    (ensureForCome an fnIdx pro).2.seekingVarName = an.seekingVarName := by
  cases fnIdx with
  | none => rfl
  | some i =>
      cases pro with
      | some p => rfl
      | none =>
          simp only [ensureForCome]
          exact requireActiveFns_seeking an

theorem checkForCome_contains (an : AssignedNames) (v : Int) (fnIdx : Option Nat)
    (pro : Option (Name × Name × Nat)) (seek : Name) (id : Int)
    (hseek : an.seekingVarName = seek) :
    containsSeekEqE seek id (checkForCome an v fnIdx pro) = (v == id) := by
  cases fnIdx with
  | none =>
      simp [checkForCome, seekingCheck, containsSeekEqE, hseek]
  | some i =>
      cases pro with
      | none => simp [checkForCome, seekingCheck, containsSeekEqE, hseek]
      | some p =>
          simp only [checkForCome, seekingCheck]
          cases hp : parseActivePrologue an [activeReadStmt p.1 p.2.1 p.2.2] with
          | none => simp [Option.bind, hp, containsSeekEqE, hseek]
          | some q => simp [Option.bind, hp, containsSeekEqE, hseek]

theorem checkForCome_countDirect (an : AssignedNames) (v : Int) (fnIdx : Option Nat)
    (pro : Option (Name × Name × Nat)) (seek : Name) (id : Int) :
    countDirectE seek id (checkForCome an v fnIdx pro) = 0 := by
  cases fnIdx with
  | none => simp [checkForCome, seekingCheck, countDirectE]
  | some i =>
      cases pro with
      | none => simp [checkForCome, seekingCheck, countDirectE]
      | some p =>
          simp only [checkForCome, seekingCheck]
          cases hp : parseActivePrologue an [activeReadStmt p.1 p.2.1 p.2.2] with
          | none => simp [Option.bind, hp, countDirectE]
          | some q => simp [Option.bind, hp, countDirectE]

theorem countDirectS_activeRead (seek : Name) (id : Int) (flag af : Name) (bit : Nat) :
    countDirectS seek id (activeReadStmt flag af bit) = 0 := by
  simp [activeReadStmt, countDirectS, countDirectDecls, countDirectOptE, countDirectE]

theorem countDirectS_activeClear (seek : Name) (id : Int) (af : Name) (bit : Nat) :
    countDirectS seek id (activeClearStmt af bit) = 0 := by
  simp [activeClearStmt, countDirectS, countDirectE]

theorem countDirectS_guard (seek : Name) (id : Int) (an : AssignedNames)
    (v : Int) (fnIdx : Option Nat) (pro : Option (Name × Name × Nat))
    (body : List Stmt)
    (hseek : an.seekingVarName = seek)
    (hb : countDirectSs seek id body = 0) :
    countDirectS seek id
      (.ifStmt (checkForCome an v fnIdx pro)
        (.block (seekResetStmt an.seekingVarName :: body)) none) =
      (if v == id then 1 else 0) := by
  simp only [countDirectS, checkForCome_contains an v fnIdx pro seek id hseek,
    checkForCome_countDirect, consFirstReset, seekResetStmt, hseek,
    countDirectSs, countDirectOptS, countDirectE, countDirectOptE]
  simp [hb, countDirectS, countDirectE]

theorem countDirectE_item_rhs (seek : Name) (id : Int) (item l r : Expr)
    (h0 : countDirectE seek id item = 0) (hlr : jsLeftRight item = some (l, r)) :
    countDirectE seek id r = 0 := by
  cases item <;> simp [jsLeftRight] at hlr
  all_goals
    obtain ⟨hl, hr⟩ := hlr
    subst hl; subst hr
    simp [countDirectE] at h0
    omega

theorem processInitItem_record (item : Expr) (dotted : String) (rhs : Expr)
    (h : processInitItem item = .record dotted rhs) :
    ∃ l, jsLeftRight item = some (l, rhs) := by
  simp only [processInitItem] at h
  by_cases hu : isUnderscoreIdent item
  · simp [hu] at h
  · simp only [hu, Bool.false_eq_true, if_false] at h
    by_cases hm : malformedGuard item
    · simp [hm] at h
    · simp only [hm, Bool.false_eq_true, if_false] at h
      cases hlr : jsLeftRight item with
      | none => rw [hlr] at h; exact absurd h (by simp)
      | some p =>
          obtain ⟨l, r⟩ := p
          rw [hlr] at h
          dsimp only at h
          cases hdc : dottedChainParts l with
          | none => rw [hdc] at h; exact absurd h (by simp)
          | some parts =>
              rw [hdc] at h
              simp only [InitItemOutcome.record.injEq] at h
              exact ⟨l, by rw [h.2]⟩

theorem processInitItems_clean (seek : Name) (id : Int) :
    ∀ (items : List Expr),
      (∀ e ∈ items, countDirectE seek id e = 0) →
      ∀ p ∈ (processInitItems items).1, countDirectE seek id p.2 = 0 := by
  intro items
  induction items with
  | nil => intro _ p hp; simp [processInitItems] at hp
  | cons item rest ih =>
      intro hall p hp
      have hitem : countDirectE seek id item = 0 := hall item (by simp)
      have hrest := ih (fun e he => hall e (by simp [he]))
      simp only [processInitItems] at hp
      cases hPI : processInitItem item with
      | skip => rw [hPI] at hp; exact hrest p hp
      | malformed msg => rw [hPI] at hp; exact hrest p hp
      | record dotted rhs =>
          rw [hPI] at hp
          simp only [List.mem_cons] at hp
          cases hp with
          | inr hmem => exact hrest p hmem
          | inl heq =>
              subst heq
          -- wait p = (dotted, rhs) — goal countDirectE seek id (dotted, rhs).2 = rhs
              obtain ⟨l, hlr⟩ := processInitItem_record item dotted rhs hPI
              exact countDirectE_item_rhs seek id item l rhs hitem hlr

theorem lookupAndConsumeParam_clean (P : Expr → Prop) (pfx : List String) (n : Name) :
    ∀ (inits : List (String × Expr)) (e : Expr) (rest : List (String × Expr)),
      (∀ p ∈ inits, P p.2) →
      lookupAndConsumeParam pfx n inits = some (e, rest) →
      P e ∧ ∀ p ∈ rest, P p.2 := by
  intro inits
  induction inits with
  | nil => intro e rest _ h; simp [lookupAndConsumeParam] at h
  | cons kv inits ih =>
      intro e rest hall h
      obtain ⟨k, v⟩ := kv
      simp only [lookupAndConsumeParam] at h
      by_cases hk : (k == String.intercalate "." (pfx ++ [n])) = true
      · rw [if_pos hk] at h
        simp only [Option.some.injEq, Prod.mk.injEq] at h
        refine ⟨h.1 ▸ hall (k, v) (by simp), ?_⟩
        intro p hp
        exact hall p (by simp [h.2 ▸ hp])
      · rw [if_neg hk] at h
        cases hrec : lookupAndConsumeParam pfx n inits with
        | none => rw [hrec] at h; exact absurd h (by simp)
        | some q =>
            obtain ⟨e', rest'⟩ := q
            rw [hrec] at h
            simp only [Option.some.injEq, Prod.mk.injEq] at h
            have := ih e' rest' (fun p hp => hall p (by simp [hp])) hrec
            refine ⟨h.1 ▸ this.1, ?_⟩
            intro p hp
            rw [← h.2] at hp
            simp only [List.mem_cons] at hp
            cases hp with
            | inl hq => exact hq ▸ hall (k, v) (by simp)
            | inr hq => exact this.2 p hq

theorem fillFromPfx_clean (seek : Name) (id : Int) (pfx : List String) :
    ∀ (slots : List (Name × Option (Name × Expr))) (inits : List (String × Expr)),
      (∀ s ∈ slots, slotClean seek id s) →
      (∀ p ∈ inits, countDirectE seek id p.2 = 0) →
      (∀ s ∈ (fillFromPfx pfx slots inits).1, slotClean seek id s)
      ∧ (∀ p ∈ (fillFromPfx pfx slots inits).2, countDirectE seek id p.2 = 0) := by
  intro slots
  induction slots with
  | nil => intro inits _ hi; simpa [fillFromPfx] using hi
  | cons s slots ih =>
      intro inits hs hi
      obtain ⟨p, slot⟩ := s
      cases slot with
      | some q =>
          simp only [fillFromPfx]
          have hrec := ih inits (fun s hs' => hs s (by simp [hs'])) hi
          constructor
          · intro s hsm
            simp only [List.mem_cons] at hsm
            cases hsm with
            | inl h => exact h ▸ hs (p, some q) (by simp)
            | inr h => exact hrec.1 s h
          · exact hrec.2
      | none =>
          simp only [fillFromPfx]
          cases hl : lookupAndConsumeParam pfx p inits with
          | none =>
              have hrec := ih inits (fun s hs' => hs s (by simp [hs'])) hi
              constructor
              · intro s hsm
                simp only [List.mem_cons] at hsm
                cases hsm with
                | inl h => exact h ▸ trivial
                | inr h => exact hrec.1 s h
              · exact hrec.2
          | some q =>
              obtain ⟨e, inits'⟩ := q
              have hle := lookupAndConsumeParam_clean
                (fun e => countDirectE seek id e = 0) pfx p inits e inits' hi hl
              have hrec := ih inits' (fun s hs' => hs s (by simp [hs'])) hle.2
              constructor
              · intro s hsm
                simp only [List.mem_cons] at hsm
                cases hsm with
                | inl h => exact h ▸ hle.1
                | inr h => exact hrec.1 s h
              · exact hrec.2

theorem fillFromPfxs_clean (seek : Name) (id : Int) :
    ∀ (pfxs : List (List String)) (slots : List (Name × Option (Name × Expr)))
      (inits : List (String × Expr)),
      (∀ s ∈ slots, slotClean seek id s) →
      (∀ p ∈ inits, countDirectE seek id p.2 = 0) →
      (∀ s ∈ (fillFromPfxs pfxs slots inits).1, slotClean seek id s)
      ∧ (∀ p ∈ (fillFromPfxs pfxs slots inits).2, countDirectE seek id p.2 = 0) := by
  intro pfxs
  induction pfxs with
  | nil => intro slots inits hs hi; exact ⟨hs, hi⟩
  | cons pfx pfxs ih =>
      intro slots inits hs hi
      have h1 := fillFromPfx_clean seek id pfx slots inits hs hi
      simpa [fillFromPfxs] using ih _ _ h1.1 h1.2

theorem declsAndArgs_clean (seek : Name) (id : Int) :
    ∀ (slots : List (Name × Option (Name × Expr))),
      (∀ s ∈ slots, slotClean seek id s) →
      countDirectDecls seek id (declsAndArgs slots).1 = 0
      ∧ countDirectEs seek id (declsAndArgs slots).2 = 0 := by
  intro slots
  induction slots with
  | nil => intro _; simp [declsAndArgs, countDirectDecls, countDirectEs]
  | cons s slots ih =>
      intro hs
      obtain ⟨p, slot⟩ := s
      have hrec := ih (fun s hs' => hs s (by simp [hs']))
      cases slot with
      | some q =>
          have hq : countDirectE seek id q.2 = 0 := hs (p, some q) (by simp)
          simp [declsAndArgs, countDirectDecls, countDirectEs, countDirectOptE,
            countDirectE, hrec.1, hrec.2, hq]
      | none =>
          simp only [declsAndArgs]
          by_cases he : (declsAndArgs slots).2.isEmpty
          · simp [he, hrec.1, countDirectEs]
          · simp [he, hrec.1, hrec.2, countDirectEs, countDirectE]

theorem countDirectS_mkCallBlock (seek : Name) (id : Int) (an : AssignedNames)
    (check : Expr) (decls : List (Name × Option Expr)) (inv : Expr)
    (af : Name) (bit : Nat)
    (hcheck : countDirectE seek id check = 0)
    (hdecls : countDirectDecls seek id decls = 0)
    (hinv : countDirectE seek id inv = 0) :
    countDirectS seek id (mkCallBlock an check decls inv af bit) = 0 := by
  by_cases he : decls.isEmpty
  · simp [mkCallBlock, he, countDirectS, countDirectSs, countDirectOptS,
      countDirectOptSs, countDirectOptHandler, consFirstReset, hcheck, hinv,
      setActiveFnBitExpression, countDirectE, countDirectOptE]
  · simp [mkCallBlock, he, countDirectS, countDirectSs, countDirectOptS,
      countDirectOptSs, countDirectOptHandler, consFirstReset, hcheck, hinv,
      hdecls, setActiveFnBitExpression, countDirectE, countDirectOptE]

theorem driveGoalInFn_countDirect (seek : Name) (id : Int) (an : AssignedNames)
    (g : ComeHereBlock) (fnName : Name) (params : List Name) (fnBody : List Stmt)
    (cb : Stmt) (an' : AssignedNames) (errs : List String)
    (hinits : ∀ p ∈ g.inits, countDirectE seek id p.2 = 0)
    (h : driveGoalInFn an g fnName params fnBody = some (cb, an', errs)) :
    countDirectS seek id cb = 0 := by
  simp only [driveGoalInFn] at h
  cases hp : parseActivePrologue an fnBody with
  | none => rw [hp] at h; exact absurd h (by simp)
  | some pro =>
      rw [hp] at h
      by_cases h1 : (lookupAndConsumeParam [""] "this" g.inits).isSome
      · simp [h1] at h
      · simp only [h1, Bool.false_eq_true, if_false] at h
        by_cases h2 : ([[fnName], []] : List (List String)).any
            (fun p => (lookupAndConsumeParam p "this" g.inits).isSome)
        · simp [h2] at h
        · simp only [h2, Bool.false_eq_true, if_false, Option.some.injEq,
            Prod.mk.injEq] at h
          have hfill := fillFromPfxs_clean seek id [[fnName], []]
            (params.map (fun p => (p, none))) g.inits
            (by intro s hs; simp only [List.mem_map] at hs
                obtain ⟨x, _, hx⟩ := hs
                rw [← hx]; trivial)
            hinits
          have hda := declsAndArgs_clean seek id _ hfill.1
          have hcb : cb = mkCallBlock
              (({ an with nameMaker := (an.nameMaker.unusedName "callee").2 } :
                  AssignedNames).requireActiveFns).2
              (seekingCheck { an with nameMaker := (an.nameMaker.unusedName "callee").2 }
                (g.seekingValue : Int) none false)
              (((an.nameMaker.unusedName "callee").1, some (Expr.ident fnName))
                :: (declsAndArgs (fillFromPfxs [[fnName], []]
                      (params.map (fun p => (p, none))) g.inits).1).1)
              (.call (.ident (an.nameMaker.unusedName "callee").1)
                (declsAndArgs (fillFromPfxs [[fnName], []]
                  (params.map (fun p => (p, none))) g.inits).1).2)
              (({ an with nameMaker := (an.nameMaker.unusedName "callee").2 } :
                  AssignedNames).requireActiveFns).1
              pro.2 := by
            rw [← h.1]
            simp [buildArgumentList]
          rw [hcb]
          apply countDirectS_mkCallBlock
          · simp [seekingCheck, countDirectE]
          · simp [countDirectDecls, countDirectOptE, countDirectE, hda.1]
          · simp [countDirectE, hda.2]

theorem driveGoals_countDirect (seek : Name) (id : Int) (items : List OutItem) :
    ∀ (goals : List ComeHereBlock) (an : AssignedNames) r,
      (∀ g ∈ goals, ∀ p ∈ g.inits, countDirectE seek id p.2 = 0) →
      driveGoals an items goals = some r →
      ∀ cb ∈ r.2.1, countDirectS seek id cb.2 = 0 := by
  intro goals
  induction goals with
  | nil =>
      intro an r _ h cb hcb
      simp only [driveGoals, Option.some.injEq] at h
      rw [← h] at hcb
      simp at hcb
  | cons g goals ih =>
      intro an r hall h cb hcb
      simp only [driveGoals] at h
      cases hfi : g.fnIndex with
      | none =>
          rw [hfi] at h
          dsimp only at h
          cases hrec : driveGoals an items goals with
          | none => rw [hrec] at h; exact absurd h (by simp)
          | some r' =>
              rw [hrec] at h
              simp only [Option.some.injEq] at h
              have := ih an r' (fun g' hg' => hall g' (by simp [hg'])) hrec
              rw [← h] at hcb
              exact this cb hcb
      | some idx =>
          rw [hfi] at h
          dsimp only at h
          cases hinfo : fnInfoOf items idx with
          | none => rw [hinfo] at h; exact absurd h (by simp)
          | some info =>
              rw [hinfo] at h
              dsimp only at h
              cases hdg : driveGoalInFn an g info.1 info.2.1 info.2.2 with
              | none => rw [hdg] at h; exact absurd h (by simp)
              | some q =>
                  rw [hdg] at h
                  dsimp only at h
                  cases hrec : driveGoals q.2.1 items goals with
                  | none => rw [hrec] at h; exact absurd h (by simp)
                  | some r' =>
                      rw [hrec] at h
                      simp only [Option.some.injEq] at h
                      rw [← h] at hcb
                      simp only [List.mem_cons] at hcb
                      cases hcb with
                      | inl hq =>
                          have hz := driveGoalInFn_countDirect seek id an g
                            info.1 info.2.1 info.2.2 q.1 q.2.1 q.2.2
                            (hall g (by simp)) (by rw [hdg])
                          rw [hq]
                          exact hz
                      | inr hq =>
                          exact ih q.2.1 r'
                            (fun g' hg' => hall g' (by simp [hg'])) hrec cb hq

theorem extractCome_seeking (st : XState) (fnIdx : Option Nat)
    (pro : Option (Name × Name × Nat)) (obj : Expr) (body : List Stmt) :
    (extractCome st fnIdx pro obj body).2.2.an.seekingVarName
      = st.an.seekingVarName := by
  simp [extractCome, ensureForCome_seeking]

theorem countDirectSs_all_zero (seek : Name) (id : Int) :
    ∀ (l : List Stmt), (∀ s ∈ l, countDirectS seek id s = 0) →
      countDirectSs seek id l = 0 := by
  intro l
  induction l with
  | nil => intro _; rfl
  | cons s ss ih =>
      intro h
      simp [countDirectSs, h s (by simp), ih (fun x hx => h x (by simp [hx]))]

theorem countDirectEs_eq_zero (seek : Name) (id : Int) :
    ∀ (es : List Expr), countDirectEs seek id es = 0 →
      ∀ e ∈ es, countDirectE seek id e = 0 := by
  intro es
  induction es with
  | nil => simp
  | cons a l ih =>
      intro h e he
      simp only [countDirectEs] at h
      rcases List.mem_cons.mp he with rfl | hm
      · omega
      · exact ih (by omega) e hm

theorem parseWithObject_inits_clean (seek : Name) (id : Int) (obj : Expr)
    (h : countDirectE seek id obj = 0) :
    ∀ p ∈ (parseWithObject obj).2.1, countDirectE seek id p.2 = 0 := by
  cases obj
  case seqExpr es =>
      have hes := countDirectEs_eq_zero seek id es (by simpa [countDirectE] using h)
      cases es with
      | nil => intro p hp; simp [parseWithObject, processInitItems] at hp
      | cons e rest =>
          cases e
          case str s =>
              simp only [parseWithObject]
              exact processInitItems_clean seek id rest
                (fun x hx => hes x (by simp [hx]))
          all_goals
            simp only [parseWithObject]
          all_goals
            exact processInitItems_clean seek id _ hes
  case str s => intro p hp; simp [parseWithObject, processInitItems] at hp
  all_goals
    simp only [parseWithObject]
  all_goals
    exact processInitItems_clean seek id _
      (by intro e he; simp at he; subst he; exact h)

theorem extractFnItems_census (seek : Name) (id : Int) (fnIdx : Nat) :
    ∀ (items : List FnItem) (st : XState) (pro : Option (Name × Name × Nat)),
      st.an.seekingVarName = seek →
      cleanFnItems seek id items = true →
      (countDirectSs seek id (extractFnItems st fnIdx pro items).1 =
        List.countP (fun (v : Nat) => ((v : Int) == id))
          (List.range' (st.count + 1) (comeObjsFn items).length))
      ∧ (extractFnItems st fnIdx pro items).2.2.an.seekingVarName = seek
      ∧ ((extractFnItems st fnIdx pro items).2.2.count
          = st.count + (comeObjsFn items).length)
      ∧ (∀ g ∈ (extractFnItems st fnIdx pro items).2.2.goals,
          g ∈ st.goals ∨ ∀ p ∈ g.inits, countDirectE seek id p.2 = 0) := by
  intro items
  induction items with
  | nil =>
      intro st pro hseek _
      refine ⟨by simp [extractFnItems, comeObjsFn, countDirectSs], hseek, by
        simp [extractFnItems, comeObjsFn], ?_⟩
      intro g hg
      exact Or.inl hg
  | cons item rest ih =>
      intro st pro hseek hclean
      cases item with
      | plain s =>
          simp only [cleanFnItems, Bool.and_eq_true, beq_iff_eq] at hclean
          have h := ih st pro hseek hclean.2
          simp only [extractFnItems, comeObjsFn, countDirectSs]
          exact ⟨by rw [hclean.1, h.1, Nat.zero_add], h.2.1, h.2.2.1, h.2.2.2⟩
      | come obj body =>
          simp only [cleanFnItems, Bool.and_eq_true, beq_iff_eq] at hclean
          have hseek' : (extractCome st (some fnIdx) pro obj body).2.2.an.seekingVarName
              = seek := by rw [extractCome_seeking]; exact hseek
          have h := ih (extractCome st (some fnIdx) pro obj body).2.2
            (extractCome st (some fnIdx) pro obj body).2.1 hseek' hclean.2
          have hcount : (extractCome st (some fnIdx) pro obj body).2.2.count
              = st.count + 1 := by simp [extractCome]
          simp only [extractFnItems, comeObjsFn, countDirectSs, List.length_cons]
          refine ⟨?_, h.2.1, ?_, ?_⟩
          · have hguard : countDirectS seek id (extractCome st (some fnIdx) pro obj body).1
                = (if ((st.count + 1 : Nat) : Int) == id then 1 else 0) := by
              have hg := countDirectS_guard seek id
                (ensureForCome st.an (some fnIdx) pro).2 ((st.count + 1 : Nat) : Int)
                (some fnIdx) (ensureForCome st.an (some fnIdx) pro).1 body
                (by rw [ensureForCome_seeking]; exact hseek) hclean.1.2
              simpa [extractCome] using hg
            rw [hguard, h.1, hcount]
            rw [List.range'_succ, List.countP_cons]
            simp only [beq_iff_eq]
            exact Nat.add_comm _ _
          · rw [h.2.2.1, hcount]; omega
          · intro g hg
            have := h.2.2.2 g hg
            cases this with
            | inr hclean' => exact Or.inr hclean'
            | inl hmem =>
                simp only [extractCome, List.mem_append, List.mem_singleton] at hmem
                cases hmem with
                | inl hold => exact Or.inl hold
                | inr hnew =>
                    right
                    rw [hnew]
                    exact parseWithObject_inits_clean seek id obj hclean.1.1

theorem countP_range'_add (p : Nat → Bool) (s m n : Nat) :
    List.countP p (List.range' s (m + n)) =
      List.countP p (List.range' s m) + List.countP p (List.range' (s + m) n) := by
  rw [Nat.add_comm m n, ← List.range'_append, List.countP_append, Nat.one_mul]

theorem extractFn_census (seek : Name) (id : Int) (st : XState) (fnIdx : Nat)
    (items : List FnItem)
    (hseek : st.an.seekingVarName = seek)
    (hclean : cleanFnItems seek id items = true) :
    countDirectSs seek id (extractFn st fnIdx items).1 =
      List.countP (fun (v : Nat) => ((v : Int) == id))
        (List.range' (st.count + 1) (comeObjsFn items).length)
    ∧ (extractFn st fnIdx items).2.an.seekingVarName = seek
    ∧ (extractFn st fnIdx items).2.count = st.count + (comeObjsFn items).length
    ∧ ∀ g ∈ (extractFn st fnIdx items).2.goals,
        g ∈ st.goals ∨ ∀ p ∈ g.inits, countDirectE seek id p.2 = 0 := by
  have h := extractFnItems_census seek id fnIdx items st none hseek hclean
  simp only [extractFn]
  cases hpro : (extractFnItems st fnIdx none items).2.1 with
  | none => exact ⟨h.1, h.2.1, h.2.2.1, h.2.2.2⟩
  | some p =>
      obtain ⟨flag, af, bit⟩ := p
      refine ⟨?_, h.2.1, h.2.2.1, h.2.2.2⟩
      simp only [countDirectSs, countDirectS_activeRead, countDirectS_activeClear,
        Nat.zero_add]
      exact h.1

theorem extractTop_census (seek : Name) (id : Int) :
    ∀ (items : List TopItem) (st : XState) (idx : Nat),
      st.an.seekingVarName = seek →
      cleanTop seek id items = true →
      (countDirectItems seek id (extractTop st idx items).1 =
        List.countP (fun (v : Nat) => ((v : Int) == id))
          (List.range' (st.count + 1) (comeObjs items).length))
      ∧ (extractTop st idx items).2.an.seekingVarName = seek
      ∧ (extractTop st idx items).2.count = st.count + (comeObjs items).length
      ∧ ∀ g ∈ (extractTop st idx items).2.goals,
          g ∈ st.goals ∨ ∀ p ∈ g.inits, countDirectE seek id p.2 = 0 := by
  intro items
  induction items with
  | nil =>
      intro st idx hseek _
      exact ⟨by simp [extractTop, comeObjs, countDirectItems], hseek,
        by simp [extractTop, comeObjs], fun g hg => Or.inl hg⟩
  | cons item rest ih =>
      intro st idx hseek hclean
      cases item with
      | plain s =>
          simp only [cleanTop, Bool.and_eq_true, beq_iff_eq] at hclean
          have h := ih st (idx + 1) hseek hclean.2
          simp only [extractTop, comeObjs, countDirectItems]
          exact ⟨by rw [hclean.1, h.1, Nat.zero_add], h.2.1, h.2.2.1, h.2.2.2⟩
      | fn name params body =>
          simp only [cleanTop, Bool.and_eq_true] at hclean
          have hf := extractFn_census seek id st idx body hseek hclean.1
          have h := ih (extractFn st idx body).2 (idx + 1) hf.2.1 hclean.2
          simp only [extractTop, comeObjs, countDirectItems, List.length_append]
          refine ⟨?_, h.2.1, ?_, ?_⟩
          · rw [hf.1, h.1, hf.2.2.1, countP_range'_add]
            rw [show st.count + (comeObjsFn body).length + 1
                  = st.count + 1 + (comeObjsFn body).length from by omega]
          · rw [h.2.2.1, hf.2.2.1]; omega
          · intro g hg
            rcases h.2.2.2 g hg with hmem | hcl
            · exact hf.2.2.2 g hmem
            · exact Or.inr hcl
      | come obj body =>
          simp only [cleanTop, Bool.and_eq_true, beq_iff_eq] at hclean
          have hseek' : (extractCome st none none obj body).2.2.an.seekingVarName
              = seek := by rw [extractCome_seeking]; exact hseek
          have h := ih (extractCome st none none obj body).2.2 (idx + 1) hseek' hclean.2
          have hcount : (extractCome st none none obj body).2.2.count
              = st.count + 1 := by simp [extractCome]
          simp only [extractTop, comeObjs, countDirectItems, List.length_cons]
          refine ⟨?_, h.2.1, ?_, ?_⟩
          · have hguard : countDirectS seek id (extractCome st none none obj body).1
                = (if ((st.count + 1 : Nat) : Int) == id then 1 else 0) := by
              have hg := countDirectS_guard seek id
                (ensureForCome st.an none none).2 ((st.count + 1 : Nat) : Int)
                none (ensureForCome st.an none none).1 body
                (by rw [ensureForCome_seeking]; exact hseek) hclean.1.2
              simpa [extractCome] using hg
            rw [hguard, h.1, hcount]
            rw [List.range'_succ, List.countP_cons]
            simp only [beq_iff_eq]
            exact Nat.add_comm _ _
          · rw [h.2.2.1, hcount]; omega
          · intro g hg
            rcases h.2.2.2 g hg with hmem | hcl
            · simp only [extractCome, List.mem_append, List.mem_singleton] at hmem
              rcases hmem with hold | hnew
              · exact Or.inl hold
              · right
                rw [hnew]
                exact parseWithObject_inits_clean seek id obj hclean.1.1
            · exact Or.inr hcl

theorem countDirectSs_append (seek : Name) (id : Int) :
    ∀ (a b : List Stmt),
      countDirectSs seek id (a ++ b) =
        countDirectSs seek id a + countDirectSs seek id b := by
  intro a b
  induction a with
  | nil => simp [countDirectSs]
  | cons s ss ih => simp [countDirectSs, ih, Nat.add_assoc]

theorem assembleModule_census (seek : Name) (id : Int) (cbs : List (Nat × Stmt))
    (hcbs : ∀ q ∈ cbs, countDirectS seek id q.2 = 0) :
    ∀ (items : List OutItem),
      countDirectSs seek id (assembleModule cbs items) =
        countDirectItems seek id items := by
  intro items
  induction items with
  | nil => rfl
  | cons item rest ih =>
      cases item with
      | plain s => simp [assembleModule, countDirectSs, countDirectItems, ih]
      | fnOut idx name params body =>
          have hz : countDirectSs seek id
              (((cbs.filter (fun p => p.1 == idx)).map Prod.snd).reverse) = 0 := by
            apply countDirectSs_all_zero
            intro s hs
            simp only [List.mem_reverse, List.mem_map, List.mem_filter] at hs
            obtain ⟨q, ⟨hq, _⟩, hqs⟩ := hs
            rw [← hqs]
            exact hcbs q hq
          simp [assembleModule, countDirectSs, countDirectS, countDirectItems,
            countDirectSs_append, hz, ih]

theorem countP_range'_zero (j : Nat) : ∀ (n s : Nat), (j < s ∨ s + n ≤ j) →
    List.countP (fun (v : Nat) => ((v : Int) == (j : Int))) (List.range' s n) = 0 := by
  intro n
  induction n with
  | zero => intro s _; simp
  | succ n ih =>
      intro s h
      rw [List.range'_succ, List.countP_cons, ih (s + 1) (by omega)]
      have hs : s ≠ j := by omega
      simp [hs]

theorem countP_range'_one (j : Nat) : ∀ (n s : Nat), s ≤ j → j < s + n →
    List.countP (fun (v : Nat) => ((v : Int) == (j : Int))) (List.range' s n) = 1 := by
  intro n
  induction n with
  | zero => intro s h1 h2; omega
  | succ n ih =>
      intro s h1 h2
      rw [List.range'_succ, List.countP_cons]
      by_cases hs : s = j
      · subst hs
        rw [countP_range'_zero s n (s + 1) (Or.inl (by omega))]
        simp
      · rw [ih (s + 1) (by omega) (by omega)]
        simp [hs]

/-- C8 counterexample: on a module holding one function with one COMEHERE
block, the output contains TWO guards testing `seeking_0 === 1` that reset
`seeking_0` to 0 somewhere in their consequent — the extracted block's guard
(reset first) and the synthesised call block (reset in its `finally`) — so
the claim's "exactly one" census is 2, not 1; only the begins-with-reset
census is 1. -/
theorem transform_two_reset_guards_counterexample :
    transformMini c8Nm c8Input = some c8Res
    ∧ (AssignedNames.init c8Nm).seekingVarName = "seeking_0"
    ∧ countAnySs "seeking_0" 1 c8Res.code = 2
    ∧ countDirectSs "seeking_0" 1 c8Res.code = 1 :=
  ⟨rfl, rfl, rfl, rfl⟩

/-- C8 (amended): for every module of the restricted pipeline grammar whose
user-written statements, COMEHERE bodies and with-objects contain no guard
of the census shape, and every goal id `1 ≤ id ≤ N`, the transformed output
contains exactly one `if` whose test mentions `seeking === id` and whose
consequent's first statement resets `seeking` to 0 — the guard produced by
extracting that goal's COMEHERE block; the synthesised call blocks
contribute none of this shape (their reset sits in a `finally`). -/
theorem transform_unique_direct_guard (nm : NameMaker) (input : List TopItem)
    (res : TransformResult) (id : Nat)
    (h : transformMini nm input = some res)
    (hclean : cleanTop (AssignedNames.init nm).seekingVarName (id : Int) input = true)
    (h1 : 1 ≤ id) (h2 : id ≤ (comeObjs input).length) :
    countDirectSs (AssignedNames.init nm).seekingVarName (id : Int) res.code = 1 := by
  simp only [transformMini] at h
  cases hdr : driveGoals
      (extractTop ⟨AssignedNames.init nm, 0, [], []⟩ 0 input).2.an
      (extractTop ⟨AssignedNames.init nm, 0, [], []⟩ 0 input).1
      (extractTop ⟨AssignedNames.init nm, 0, [], []⟩ 0 input).2.goals with
  | none => rw [hdr] at h; exact absurd h (by simp)
  | some dr =>
      rw [hdr] at h
      simp only [Option.some.injEq] at h
      have ht := extractTop_census (AssignedNames.init nm).seekingVarName (id : Int)
        input ⟨AssignedNames.init nm, 0, [], []⟩ 0 rfl hclean
      have hall : ∀ g ∈ (extractTop ⟨AssignedNames.init nm, 0, [], []⟩ 0 input).2.goals,
          ∀ p ∈ g.inits,
            countDirectE (AssignedNames.init nm).seekingVarName (id : Int) p.2 = 0 := by
        intro g hg
        rcases ht.2.2.2 g hg with hmem | hcl
        · exact absurd hmem (by simp)
        · exact hcl
      have hcbs := driveGoals_countDirect (AssignedNames.init nm).seekingVarName
        (id : Int) (extractTop ⟨AssignedNames.init nm, 0, [], []⟩ 0 input).1
        (extractTop ⟨AssignedNames.init nm, 0, [], []⟩ 0 input).2.goals
        (extractTop ⟨AssignedNames.init nm, 0, [], []⟩ 0 input).2.an dr hall hdr
      have hcode : res.code =
          assembleModule dr.2.1 (extractTop ⟨AssignedNames.init nm, 0, [], []⟩ 0 input).1 := by
        rw [← h]
      rw [hcode, assembleModule_census _ _ dr.2.1 hcbs, ht.1]
      exact countP_range'_one id (comeObjs input).length 1 h1 (by omega)

/-- Witness for the amended C8 theorem at the concrete one-goal module. -/
theorem transform_unique_direct_guard_witness :
    countDirectSs (AssignedNames.init c8Nm).seekingVarName ((1 : Nat) : Int)
      c8Res.code = 1 :=
  transform_unique_direct_guard c8Nm c8Input c8Res 1 rfl (by decide)
    (by decide) (by decide)

/-- C5: the claim (and the function's own doc comment, and the spec) says
the `const [text, value]` pair is declared at the top of the deepest
function-OR-MODULE that dominates all uses, "including module scope when
the uses occur at top level".  Evaluating the embedded pass shows the
contrary: `functionsDeepestToShallowest` yields only `Function` ancestors
— never the `Program` node — so for `$$0 += 1;` at module top level
`commonFunctions` stays empty, no declarator is collected, and the output
rewrites the uses (`($$0[0] = "1 =+", $$0[1] += 1)`) while declaring
`$$0` nowhere; the same assignment inside a function does get the
declaration at that function's top, as claimed. -/
theorem dollarDollar_module_scope_never_declared :
    (desugarDollarDollarVarShorthand
        [.exprStmt (.assign "+=" (.ident "$$0") (.num 1))] =
      [.exprStmt (.seqExpr
        [.assign "=" (.member (.ident "$$0") (.num 0) true) (.str "1 =+"),
         .assign "+=" (.member (.ident "$$0") (.num 1) true) (.num 1)])])
    ∧ (desugarDollarDollarVarShorthand
        [.funcDecl "g" [] [.exprStmt (.assign "=" (.ident "$$0") (.num 2))]] =
      [.funcDecl "g" []
        [.varDecl "const"
           [("$$0", some (.arrayLit [.str "undefined", .unary "void" (.num 0)]))],
         .exprStmt (.seqExpr
           [.assign "=" (.member (.ident "$$0") (.num 0) true) (.str "2 ="),
            .assign "=" (.member (.ident "$$0") (.num 1) true) (.num 2)])]]) :=
  ⟨rfl, rfl⟩

end Comehere

